import Mathlib

/-!
Verification of the ontology-curation-manager evaluation-and-grading pipeline.

The development shallowly embeds the core logic of the repository:

* `app/grader.js` — `statusPolicy`, `buildRequirementTypeMap`,
  `computePerResourceCuration`, `computeOntologyReport`;
* `app/engine.js` — `guessOntologyIri`, `extractResource`,
  `evaluateSingleQuery`, `evaluateAllQueries`.

JavaScript `Map`s are modelled as association lists preserving insertion
order (`setVal` replaces in place or appends), JavaScript `Set`s as
duplicate-free lists in insertion order (`addToSet`), and JavaScript
string truthiness (`x || d`, `x || null`, `if (x)`) by the helpers
`jsOrDefault`, `jsOrNull`, `jsTruthy`: a missing field is `none`, and the
empty string is falsy exactly as in the source.
-/

/-- Lookup in an association list: first pair whose key matches, as
JavaScript `Map.get` (keys are unique by construction of the maps below). -/
def findVal {α : Type} (k : String) : List (String × α) → Option α
  | [] => none
  | kv :: rest => if kv.1 = k then some kv.2 else findVal k rest

/-- JavaScript `Map.set`: replace the value at an existing key in place,
otherwise append the new pair at the end (insertion order preserved). -/
def setVal {α : Type} (k : String) (v : α) : List (String × α) → List (String × α)
  | [] => [(k, v)]
  | kv :: rest => if kv.1 = k then (k, v) :: rest else kv :: setVal k v rest

/-- JavaScript `Set.add` followed by `Array.from`: append if not present. -/
def addToSet (l : List String) (x : String) : List String :=
  if x ∈ l then l else l ++ [x]

/-- JavaScript `v || d` for a string field that may be missing (`none`)
or empty (falsy). -/
def jsOrDefault (v : Option String) (d : String) : String :=
  match v with
  | some s => if s = "" then d else s
  | none => d

/-- JavaScript `v || null` for a string field. -/
def jsOrNull (v : Option String) : Option String :=
  match v with
  | some s => if s = "" then none else some s
  | none => none

/-- JavaScript truthiness of a possibly missing string (`if (v)`). -/
def jsTruthy (v : Option String) : Bool :=
  match v with
  | some s => s ≠ ""
  | none => false

/-- IAO status identifier for `uncurated` (grader.js `IAO.UNCURATED`). -/
def IAO_UNCURATED : String := "http://purl.obolibrary.org/obo/IAO_0000124"

/-- IAO status identifier for `metadata incomplete`. -/
def IAO_METADATA_INCOMPLETE : String := "http://purl.obolibrary.org/obo/IAO_0000123"

/-- IAO status identifier for `metadata complete`. -/
def IAO_METADATA_COMPLETE : String := "http://purl.obolibrary.org/obo/IAO_0000120"

/-- IAO status identifier for `pending final vetting`. -/
def IAO_PENDING_FINAL_VETTING : String := "http://purl.obolibrary.org/obo/IAO_0000125"

/-- Status identifier for `requires discussion` (reserved). -/
def IAO_REQUIRES_DISCUSSION : String := "http://example.org/curation-status/requires-discussion"

/-- Status identifier for `ready for release` (reserved). -/
def IAO_READY_FOR_RELEASE : String := "http://example.org/curation-status/ready-for-release"

/-- The `IAO_LABELS` table of grader.js. -/
def iaoLabels : List (String × String) :=
  [(IAO_UNCURATED, "uncurated"),
   (IAO_METADATA_INCOMPLETE, "metadata incomplete"),
   (IAO_METADATA_COMPLETE, "metadata complete"),
   (IAO_PENDING_FINAL_VETTING, "pending final vetting"),
   (IAO_REQUIRES_DISCUSSION, "requires discussion"),
   (IAO_READY_FOR_RELEASE, "ready for release")]

/-- JavaScript `IAO_LABELS[statusIri] || 'unknown'`. -/
def iaoLabel (statusIri : String) : String :=
  match findVal statusIri iaoLabels with
  | some l => l
  | none => "unknown"

/-- The flags map carried on a per-entity profile (grader.js `entry.flags`). -/
structure Flags where
  uncurated : Bool
  requiresDiscussion : Bool
  readyForRelease : Bool
  deriving Repr, DecidableEq

/-- The empty flags object: in grader.js a fresh `flags` record with all
flags false, and also the document aggregator literal `{}`, whose
`uncurated` member reads as falsy. -/
def emptyFlags : Flags :=
  { uncurated := false, requiresDiscussion := false, readyForRelease := false }

/-- grader.js `statusPolicy(hasReqFail, hasRecFail, flags)`. -/
def statusPolicy (hasReqFail hasRecFail : Bool) (flags : Flags) : String :=
  if flags.uncurated then IAO_UNCURATED
  else if hasReqFail then IAO_METADATA_INCOMPLETE
  else if !hasReqFail && hasRecFail then IAO_METADATA_COMPLETE
  else IAO_PENDING_FINAL_VETTING

/-- The four-case priority rule as the specification states it (first match
wins): uncurated flag, then any mandatory failure, then any advisory
failure, then pending final vetting. Written from the claim text, to be
compared with the source's `statusPolicy`. -/
def fourCaseRule (uncurated hasMandatoryFail hasAdvisoryFail : Bool) : String :=
  if uncurated then IAO_UNCURATED
  else if hasMandatoryFail then IAO_METADATA_INCOMPLETE
  else if hasAdvisoryFail then IAO_METADATA_COMPLETE
  else IAO_PENDING_FINAL_VETTING

/-- One requirement declaration of the manifest
(`manifest.requirements` entry): `id`, optional `type`, optional numeric
`weight`. -/
structure Requirement where
  id : String
  type : Option String
  weight : Option Int
  deriving Repr, DecidableEq

/-- The manifest object, restricted to the fields the graders read. -/
structure Manifest where
  requirements : List Requirement
  deriving Repr, DecidableEq

/-- One normalized result record as the graders read it. Each field is
optional because grader.js defends every access with `|| default`; the
fields `severity` and `details` are never read by the aggregators and are
omitted. -/
structure ResultRow where
  resource : Option String
  requirementId : Option String
  status : Option String
  queryId : Option String
  scope : Option String
  deriving Repr, DecidableEq

/-- grader.js `buildRequirementTypeMap`: map each declared requirement id
to `"requirement"` or `"recommendation"`, skipping entries with a falsy id. -/
def buildRequirementTypeMap (manifest : Manifest) : List (String × String) :=
  manifest.requirements.foldl
    (fun m r =>
      if r.id = "" then m
      else setVal r.id
        (if r.type = some "recommendation" then "recommendation" else "requirement") m)
    []

/-- A per-entity profile (grader.js `entry`): failure sets and flags. -/
structure Entry where
  resource : String
  failedRequirements : List String
  failedRecommendations : List String
  flags : Flags
  deriving Repr, DecidableEq

/-- A fresh per-entity profile for a resource. -/
def emptyEntry (res : String) : Entry :=
  { resource := res, failedRequirements := [], failedRecommendations := [],
    flags := emptyFlags }

/-- grader.js: resolve a requirement id to its type, defaulting to
`"requirement"` when the id is null or unlisted. -/
def resolveType (reqType : List (String × String)) (requirementId : Option String) : String :=
  match requirementId with
  | some rid =>
    match findVal rid reqType with
    | some t => t
    | none => "requirement"
  | none => "requirement"

/-- The failure-set update of the `computePerResourceCuration` loop
(grader.js `if (status === 'fail' && requirementId)` block). -/
def applyFailure (type : String) (requirementId : Option String) (status : String)
    (e : Entry) : Entry :=
  if status = "fail" then
    match requirementId with
    | some rid =>
      if type = "requirement" then
        { e with failedRequirements := addToSet e.failedRequirements rid }
      else if type = "recommendation" then
        { e with failedRecommendations := addToSet e.failedRecommendations rid }
      else e
    | none => e
  else e

/-- The classifier update of the `computePerResourceCuration` loop
(grader.js `if (status === 'fail' && queryId === 'q_onlyLabel')` block). -/
def applyClassifier (status : String) (queryId : Option String) (e : Entry) : Entry :=
  if status = "fail" ∧ queryId = some "q_onlyLabel" then
    { e with flags := { e.flags with uncurated := true } }
  else e

/-- The per-row update of one entity profile inside the
`computePerResourceCuration` loop of grader.js: record the failed
requirement or recommendation, then the `q_onlyLabel` classifier flag.
`old` is the current map entry for the row's resource (`none` when the
resource is seen for the first time). -/
def stepEntry (reqType : List (String × String)) (row : ResultRow) (old : Option Entry) : Entry :=
  let resource := jsOrDefault row.resource "urn:resource:unknown"
  let requirementId := jsOrNull row.requirementId
  let status := jsOrDefault row.status "fail"
  let queryId := jsOrNull row.queryId
  let type := resolveType reqType requirementId
  let e :=
    match old with
    | some e => e
    | none => emptyEntry resource
  applyClassifier status queryId (applyFailure type requirementId status e)

/-- One iteration of the `for (const row of rows)` loop of
`computePerResourceCuration`: fetch or create the profile for the row's
resource, update it, store it back. -/
def processRow (reqType : List (String × String)) (per : List (String × Entry))
    (row : ResultRow) : List (String × Entry) :=
  let resource := jsOrDefault row.resource "urn:resource:unknown"
  setVal resource (stepEntry reqType row (findVal resource per)) per

/-- The `if (Array.isArray(allResources))` loop of
`computePerResourceCuration`: seed an empty profile for every known
resource that has no profile yet (`none` models a non-array argument). -/
def addKnownResources (per : List (String × Entry)) (allResources : Option (List String)) :
    List (String × Entry) :=
  match allResources with
  | none => per
  | some l =>
    l.foldl
      (fun per iri =>
        if (findVal iri per).isSome then per else setVal iri (emptyEntry iri) per)
      per

/-- One per-entity report row of the output of `computePerResourceCuration`. -/
structure Report where
  resource : String
  statusIri : String
  statusLabel : String
  failedRequirements : List String
  failedRecommendations : List String
  deriving Repr, DecidableEq

/-- The output loop of `computePerResourceCuration`: derive the status of
one profile and project it to the report shape. -/
def finalizeEntry (e : Entry) : Report :=
  let hasReqFail := !e.failedRequirements.isEmpty
  let hasRecFail := !e.failedRecommendations.isEmpty
  let statusIri := statusPolicy hasReqFail hasRecFail e.flags
  { resource := e.resource, statusIri := statusIri, statusLabel := iaoLabel statusIri,
    failedRequirements := e.failedRequirements,
    failedRecommendations := e.failedRecommendations }

/-- grader.js `computePerResourceCuration(results, manifest, allResources)`. -/
def computePerResourceCuration (results : List ResultRow) (manifest : Manifest)
    (allResources : Option (List String)) : List Report :=
  let reqType := buildRequirementTypeMap manifest
  let per := results.foldl (processRow reqType) []
  let per := addKnownResources per allResources
  per.map (fun p => finalizeEntry p.2)

/-- A per-requirement profile of `computeOntologyReport` (grader.js
`requirements` map value). -/
structure ReqEntry where
  id : String
  type : String
  weight : Int
  failingResources : List String
  hasFail : Bool
  deriving Repr, DecidableEq

/-- The seeding of one requirement declaration in `computeOntologyReport`. -/
def seedEntry (r : Requirement) : ReqEntry :=
  { id := r.id,
    type := if r.type = some "recommendation" then "recommendation" else "requirement",
    weight := match r.weight with | some w => w | none => 1,
    failingResources := [], hasFail := false }

/-- The seeding loop of `computeOntologyReport`: one profile per manifest
requirement declaration (later declarations with the same id overwrite). -/
def seedRequirements (manifest : Manifest) : List (String × ReqEntry) :=
  manifest.requirements.foldl (fun m r => setVal r.id (seedEntry r) m) []

/-- The per-requirement update of the row loop of `computeOntologyReport`
(grader.js `if (status === 'fail')` block): a failing row marks the
requirement failed and, when resource-scoped with a non-null resource,
records the failing resource; a passing row changes nothing. -/
def stepReqEntry (row : ResultRow) (entry : ReqEntry) : ReqEntry :=
  let status := jsOrDefault row.status "fail"
  let scope := jsOrDefault row.scope "resource"
  let resource := jsOrNull row.resource
  if status = "fail" then
    { entry with
      hasFail := true,
      failingResources :=
        match resource with
        | some res =>
          if scope = "resource" then addToSet entry.failingResources res
          else entry.failingResources
        | none => entry.failingResources }
  else entry

/-- One iteration of the row loop of `computeOntologyReport`: rows with a
null or unknown requirement id are skipped, all others update their
requirement's profile through `stepReqEntry`. -/
def processReportRow (reqs : List (String × ReqEntry)) (row : ResultRow) :
    List (String × ReqEntry) :=
  match jsOrNull row.requirementId with
  | none => reqs
  | some rid =>
    match findVal rid reqs with
    | none => reqs
    | some entry => setVal rid (stepReqEntry row entry) reqs

/-- One entry of the requirement list in the document status report. -/
structure ReqReport where
  id : String
  type : String
  weight : Int
  status : String
  failedResourcesCount : Nat
  failingResources : List String
  deriving Repr, DecidableEq

/-- The projection of a per-requirement profile to its report entry
(final loop of `computeOntologyReport`). -/
def toReqReport (e : ReqEntry) : ReqReport :=
  { id := e.id, type := e.type, weight := e.weight,
    status := if e.hasFail then "fail" else "pass",
    failedResourcesCount := e.failingResources.length,
    failingResources := e.failingResources }

/-- The document status report returned by `computeOntologyReport`. -/
structure OntologyReport where
  ontologyIri : String
  statusIri : String
  statusLabel : String
  requirements : List ReqReport
  deriving Repr, DecidableEq

/-- grader.js `computeOntologyReport(results, manifest, ontologyIri)`. -/
def computeOntologyReport (results : List ResultRow) (manifest : Manifest)
    (ontologyIri : Option String) : OntologyReport :=
  let reqs := results.foldl processReportRow (seedRequirements manifest)
  let hasReqFail := reqs.any (fun p => p.2.type == "requirement" && p.2.hasFail)
  let hasRecFail := reqs.any (fun p => p.2.type == "recommendation" && p.2.hasFail)
  let requirementList := reqs.map (fun p => toReqReport p.2)
  let statusIri := statusPolicy hasReqFail hasRecFail emptyFlags
  { ontologyIri := jsOrDefault ontologyIri "urn:ontology:unknown",
    statusIri := statusIri, statusLabel := iaoLabel statusIri,
    requirements := requirementList }

/-- One RDF quad of the loaded store, restricted to the term values the
engine reads. -/
structure Quad where
  subject : String
  predicate : String
  object : String
  deriving Repr, DecidableEq

/-- The `rdf:type` predicate IRI used by `guessOntologyIri`. -/
def RDF_TYPE : String := "http://www.w3.org/1999/02/22-rdf-syntax-ns#type"

/-- The `owl:Ontology` class IRI used by `guessOntologyIri`. -/
def OWL_ONTOLOGY : String := "http://www.w3.org/2002/07/owl#Ontology"

/-- engine.js `guessOntologyIri(store)`: the subject of the first quad
typing something as `owl:Ontology`, else the sentinel. -/
def guessOntologyIri (store : List Quad) : String :=
  match store.find? (fun q => q.predicate == RDF_TYPE && q.object == OWL_ONTOLOGY) with
  | some q => q.subject
  | none => "urn:ontology:unknown"

/-- One variable-binding row returned by the query backend for an
enumerative (SELECT) query: variable names paired with the bound term
values, in binding order (JavaScript object insertion order). -/
abbrev BindingRow := List (String × String)

/-- One query declaration from the manifest, restricted to the fields the
engine reads. -/
structure QueryMeta where
  id : String
  kind : Option String
  polarity : Option String
  severity : Option String
  scope : Option String
  checksConformityTo : Option String
  resourceVar : Option String
  deriving Repr, DecidableEq

/-- The payload carried on a result record (`details`): the raw binding
row for SELECT records, the boolean outcome for ASK records. -/
inductive Details where
  | rowDetails (row : BindingRow) : Details
  | askDetails (ok : Bool) : Details
  deriving Repr, DecidableEq

/-- One result record as emitted by `evaluateSingleQuery` in engine.js. -/
structure EngineRecord where
  resource : Option String
  queryId : String
  requirementId : Option String
  status : String
  severity : String
  scope : String
  details : Details
  deriving Repr, DecidableEq

/-- engine.js `extractResource(row)` (SELECT branch): prefer the
designated variable when its value is truthy, then a variable literally
named `resource` when truthy, then the first bound value, else null. -/
def extractResource (resourceVar : String) (row : BindingRow) : Option String :=
  if jsTruthy (findVal resourceVar row) then findVal resourceVar row
  else if jsTruthy (findVal "resource" row) then findVal "resource" row
  else
    match row with
    | [] => none
    | kv :: _ => some kv.2

/-- engine.js `evaluateSingleQuery(store, qMeta, queryText)`. The external
query backend is factored out: `selectRows` is what `runSelect` returned
and `askOk` what `runAsk` returned for this query; only the branch the
declaration's kind selects reads its input. -/
def evaluateSingleQuery (store : List Quad) (qMeta : QueryMeta)
    (selectRows : List BindingRow) (askOk : Bool) : List EngineRecord :=
  let requirementId := jsOrNull qMeta.checksConformityTo
  let severity := jsOrDefault qMeta.severity "info"
  let scope := jsOrDefault qMeta.scope "resource"
  if qMeta.kind = some "SELECT" then
    let resourceVar := jsOrDefault qMeta.resourceVar "resource"
    selectRows.map (fun row =>
      { resource := extractResource resourceVar row,
        queryId := qMeta.id, requirementId := requirementId,
        status := if qMeta.polarity = some "matchMeansFail" then "fail" else "fail",
        severity := severity, scope := scope,
        details := Details.rowDetails row })
  else if qMeta.kind = some "ASK" then
    let status :=
      if qMeta.polarity = some "trueMeansPass" then
        if askOk then "pass" else "fail"
      else if qMeta.polarity = some "trueMeansFail" then
        if askOk then "fail" else "pass"
      else
        if askOk then "pass" else "fail"
    [{ resource := some (guessOntologyIri store),
       queryId := qMeta.id, requirementId := requirementId,
       status := status, severity := severity, scope := scope,
       details := Details.askDetails askOk }]
  else []

/-- The body of one iteration of the `for (const qMeta of manifest.queries)`
loop of `evaluateAllQueries`, as a fallible computation: `loadText` models
`loadQueryText` (a fetch that may throw) and `runQuery` models the
evaluation of the query text against the store (query execution may
throw). -/
def runDeclaration (loadText : QueryMeta → Except Unit String)
    (runQuery : QueryMeta → String → Except Unit (List EngineRecord))
    (q : QueryMeta) : Except Unit (List EngineRecord) :=
  match loadText q with
  | Except.error e => Except.error e
  | Except.ok text => runQuery q text

/-- engine.js `evaluateAllQueries`: iterate the declarations in order,
appending each declaration's records; a thrown error is caught and the
declaration contributes nothing (the store and manifest loading, which are
fatal setup steps, are factored out as the `queries` input). -/
def evaluateAllQueries (loadText : QueryMeta → Except Unit String)
    (runQuery : QueryMeta → String → Except Unit (List EngineRecord))
    (queries : List QueryMeta) : List EngineRecord :=
  queries.foldl
    (fun acc q =>
      match runDeclaration loadText runQuery q with
      | Except.ok recs => acc ++ recs
      | Except.error _ => acc)
    []

/-- The claim's fallback chain for determining a SELECT record's entity
identifier, written literally from the specification: the value bound to
the designated variable if present, else the value of a variable named
`resource`, else the value of the first bound variable, else null.
Written from the claim text, to be compared with the source's
`extractResource`. -/
def specEntityChain (resourceVar : Option String) (row : BindingRow) : Option String :=
  match resourceVar with
  | some v =>
    match findVal v row with
    | some val => some val
    | none =>
      match findVal "resource" row with
      | some val => some val
      | none => (row.head?).map Prod.snd
  | none =>
    match findVal "resource" row with
    | some val => some val
    | none => (row.head?).map Prod.snd

/-- The amended fallback chain: as the claim states it, except that the
first two steps apply only when the bound value is non-empty (JavaScript
truthiness), a designated variable bound to a falsy value falls through,
and an empty designated-variable name counts as undesignated. -/
def specEntityChainAmended (resourceVar : Option String) (row : BindingRow) : Option String :=
  let first :=
    match row with
    | [] => none
    | kv :: _ => some kv.2
  match jsOrNull resourceVar with
  | some v =>
    if jsTruthy (findVal v row) then findVal v row
    else if jsTruthy (findVal "resource" row) then findVal "resource" row
    else first
  | none =>
    if jsTruthy (findVal "resource" row) then findVal "resource" row
    else first

/-- The normalized resource key a grader row is filed under
(grader.js `row.resource || 'urn:resource:unknown'`). -/
def normRes (row : ResultRow) : String :=
  jsOrDefault row.resource "urn:resource:unknown"

/-- A record that sets the uncurated flag of the entity `res` in the
Resource Aggregator: filed under `res`, failing (a missing status defaults
to `fail`), and produced by the reserved classifier query `q_onlyLabel`. -/
def uncuratedRecordFor (res : String) (row : ResultRow) : Bool :=
  decide (normRes row = res) &&
  decide (jsOrDefault row.status "fail" = "fail") &&
  decide (jsOrNull row.queryId = some "q_onlyLabel")

/-- A record that matches requirement `rid` and fails (a missing status
defaults to `fail`). -/
def matchingFailRecord (rid : String) (row : ResultRow) : Bool :=
  decide (jsOrNull row.requirementId = some rid) &&
  decide (jsOrDefault row.status "fail" = "fail")

/-- A record that fails against a manifest requirement seeded with the
mandatory kind. -/
def failingMandatoryRecord (manifest : Manifest) (row : ResultRow) : Bool :=
  match jsOrNull row.requirementId with
  | some rid =>
    match findVal rid (seedRequirements manifest) with
    | some e => decide (e.type = "requirement") && decide (jsOrDefault row.status "fail" = "fail")
    | none => false
  | none => false

/-- A record that fails against a manifest requirement seeded with the
advisory kind. -/
def failingAdvisoryRecord (manifest : Manifest) (row : ResultRow) : Bool :=
  match jsOrNull row.requirementId with
  | some rid =>
    match findVal rid (seedRequirements manifest) with
    | some e => decide (e.type = "recommendation") && decide (jsOrDefault row.status "fail" = "fail")
    | none => false
  | none => false

/-- The polarity rule of the claim for existential-check (ASK) queries:
`trueMeansPass` maps true to pass, `trueMeansFail` maps true to fail, any
other or unspecified polarity maps true to pass. Written from the claim
text, to be compared with the ASK branch of `evaluateSingleQuery`. -/
def askPolarityRule (polarity : Option String) (ok : Bool) : String :=
  if polarity = some "trueMeansPass" then
    if ok then "pass" else "fail"
  else if polarity = some "trueMeansFail" then
    if ok then "fail" else "pass"
  else
    if ok then "pass" else "fail"

/-- The evolution of the (optional) profile stored at key `k` of the
per-resource map while the row loop runs. -/
def entryFold (reqType : List (String × String)) (k : String) (rows : List ResultRow)
    (init : Option Entry) : Option Entry :=
  rows.foldl
    (fun o row => if normRes row = k then some (stepEntry reqType row o) else o)
    init

/-- The evolution of the profile stored at key `k` of the per-requirement
map while the row loop of `computeOntologyReport` runs. -/
def reqEntryFold (k : String) (rows : List ResultRow) (e : ReqEntry) : ReqEntry :=
  rows.foldl
    (fun e row => if jsOrNull row.requirementId = some k then stepReqEntry row e else e)
    e

/-- The keys of an association list, in order. -/
def keysOf {α : Type} (m : List (String × α)) : List String :=
  m.map Prod.fst

/-- The uncurated flag of an optional profile (`false` when absent). -/
def optFlag : Option Entry → Bool
  | some e => e.flags.uncurated
  | none => false

/-- Looking a key up after `setVal` gives the new value at that key and is
unchanged elsewhere. -/
theorem findVal_setVal {α : Type} (k q : String) (v : α) (m : List (String × α)) :
    findVal k (setVal q v m) = if q = k then some v else findVal k m := by
  induction m with
  | nil =>
    by_cases h : q = k <;> simp [setVal, findVal, h]
  | cons kv rest ih =>
    by_cases hq : kv.1 = q
    · by_cases hk : q = k
      · simp [setVal, findVal, hq, hk]
      · simp [setVal, findVal, hq, hk, hq.symm ▸ hk]
    · by_cases hk : q = k
      · subst hk
        simp [setVal, findVal, hq, ih]
      · simp [setVal, findVal, hq, hk, ih]

/-- Membership in `setVal` comes from the new pair or the old list. -/
theorem mem_setVal {α : Type} (a : String × α) (q : String) (v : α) (m : List (String × α))
    (h : a ∈ setVal q v m) : a = (q, v) ∨ a ∈ m := by
  induction m with
  | nil =>
    simp [setVal] at h
    exact Or.inl h
  | cons kv rest ih =>
    by_cases hq : kv.1 = q
    · simp [setVal, hq] at h
      rcases h with h | h
      · exact Or.inl h
      · exact Or.inr (List.mem_cons_of_mem kv h)
    · simp [setVal, hq] at h
      rcases h with h | h
      · exact Or.inr (h ▸ List.mem_cons_self kv rest)
      · rcases ih h with h2 | h2
        · exact Or.inl h2
        · exact Or.inr (List.mem_cons_of_mem kv h2)

/-- A successful lookup exhibits a member of the list. -/
theorem findVal_mem {α : Type} (k : String) (v : α) (m : List (String × α))
    (h : findVal k m = some v) : (k, v) ∈ m := by
  induction m with
  | nil => simp [findVal] at h
  | cons kv rest ih =>
    by_cases hk : kv.1 = k
    · simp [findVal, hk] at h
      subst h
      subst hk
      exact List.mem_cons_self kv rest
    · simp [findVal, hk] at h
      exact List.mem_cons_of_mem kv (ih h)

/-- Lookup is `none` exactly outside the key list. -/
theorem findVal_eq_none_iff {α : Type} (k : String) (m : List (String × α)) :
    findVal k m = none ↔ k ∉ keysOf m := by
  induction m with
  | nil => simp [findVal, keysOf]
  | cons kv rest ih =>
    by_cases hk : kv.1 = k
    · simp [findVal, keysOf, hk]
    · simp [findVal, keysOf, hk, ih, Ne.symm hk]

/-- Lookup succeeds exactly on the key list. -/
theorem findVal_isSome_iff {α : Type} (k : String) (m : List (String × α)) :
    (findVal k m).isSome = true ↔ k ∈ keysOf m := by
  rcases h : findVal k m with _ | v
  · rw [findVal_eq_none_iff] at h
    simp [h]
  · have := findVal_mem k v m h
    have hk : k ∈ keysOf m := by
      simpa [keysOf] using List.mem_map_of_mem Prod.fst this
    simp [hk]

/-- With duplicate-free keys, membership determines the lookup. -/
theorem mem_findVal {α : Type} (k : String) (v : α) (m : List (String × α))
    (hnd : (keysOf m).Nodup) (h : (k, v) ∈ m) : findVal k m = some v := by
  induction m with
  | nil => simp at h
  | cons kv rest ih =>
    rcases List.mem_cons.mp h with h1 | h1
    · simp [findVal, ← h1]
    · have hk : k ∈ keysOf rest := by
        simpa [keysOf] using List.mem_map_of_mem Prod.fst h1
      have hnd2 := List.nodup_cons.mp (show (kv.1 :: keysOf rest).Nodup from hnd)
      have hne : kv.1 ≠ k := by
        intro he
        exact hnd2.1 (he ▸ hk)
      simp [findVal, hne, ih hnd2.2 h1]

/-- `setVal` on a present key leaves the key list unchanged. -/
theorem keysOf_setVal_mem {α : Type} (k : String) (v : α) (m : List (String × α))
    (h : k ∈ keysOf m) : keysOf (setVal k v m) = keysOf m := by
  induction m with
  | nil => simp [keysOf] at h
  | cons kv rest ih =>
    by_cases hk : kv.1 = k
    · simp [setVal, keysOf, hk]
    · have h2 : k ∈ keysOf rest := by
        rcases List.mem_cons.mp (show k ∈ kv.1 :: keysOf rest from h) with h1 | h1
        · exact absurd h1.symm hk
        · exact h1
      simp [setVal, keysOf, hk]
      simpa [keysOf] using ih h2

/-- `setVal` on an absent key appends it to the key list. -/
theorem keysOf_setVal_notMem {α : Type} (k : String) (v : α) (m : List (String × α))
    (h : k ∉ keysOf m) : keysOf (setVal k v m) = keysOf m ++ [k] := by
  induction m with
  | nil => simp [setVal, keysOf]
  | cons kv rest ih =>
    have hk : kv.1 ≠ k := by
      intro he
      exact h (by simp [keysOf, he])
    have h2 : k ∉ keysOf rest := by
      intro h3
      exact h (by simp [keysOf]; exact Or.inr (by simpa [keysOf] using h3))
    simp [setVal, keysOf, hk]
    simpa [keysOf] using ih h2

/-- `setVal` preserves duplicate-freeness of the key list. -/
theorem nodup_keysOf_setVal {α : Type} (k : String) (v : α) (m : List (String × α))
    (h : (keysOf m).Nodup) : (keysOf (setVal k v m)).Nodup := by
  by_cases hm : k ∈ keysOf m
  · rw [keysOf_setVal_mem k v m hm]
    exact h
  · rw [keysOf_setVal_notMem k v m hm]
    simp [List.nodup_append, h, hm]

/-- The failure-set update never touches the flags. -/
theorem applyFailure_flags (t : String) (rid : Option String) (s : String) (e : Entry) :
    (applyFailure t rid s e).flags = e.flags := by
  unfold applyFailure
  by_cases hs : s = "fail"
  · simp only [if_pos hs]
    cases rid with
    | none => rfl
    | some r =>
      by_cases h1 : t = "requirement"
      · simp [h1]
      · by_cases h2 : t = "recommendation" <;> simp [h1, h2]
  · simp [hs]

/-- The failure-set update never touches the resource identifier. -/
theorem applyFailure_resource (t : String) (rid : Option String) (s : String) (e : Entry) :
    (applyFailure t rid s e).resource = e.resource := by
  unfold applyFailure
  by_cases hs : s = "fail"
  · simp only [if_pos hs]
    cases rid with
    | none => rfl
    | some r =>
      by_cases h1 : t = "requirement"
      · simp [h1]
      · by_cases h2 : t = "recommendation" <;> simp [h1, h2]
  · simp [hs]

/-- The classifier update sets the uncurated flag exactly on failing
`q_onlyLabel` records and keeps it otherwise. -/
theorem applyClassifier_uncurated (s : String) (q : Option String) (e : Entry) :
    (applyClassifier s q e).flags.uncurated =
      (e.flags.uncurated || (decide (s = "fail") && decide (q = some "q_onlyLabel"))) := by
  unfold applyClassifier
  by_cases h : s = "fail" ∧ q = some "q_onlyLabel"
  · simp [h.1, h.2]
  · rw [if_neg h]
    have : (decide (s = "fail") && decide (q = some "q_onlyLabel")) = false := by
      by_cases h1 : s = "fail"
      · by_cases h2 : q = some "q_onlyLabel"
        · exact absurd ⟨h1, h2⟩ h
        · simp [h2]
      · simp [h1]
    simp [this]

/-- The classifier update never touches the resource identifier. -/
theorem applyClassifier_resource (s : String) (q : Option String) (e : Entry) :
    (applyClassifier s q e).resource = e.resource := by
  unfold applyClassifier
  by_cases h : s = "fail" ∧ q = some "q_onlyLabel"
  · simp [h.1, h.2]
  · simp [if_neg h]

/-- The classifier update never touches the failure sets. -/
theorem applyClassifier_failedRequirements (s : String) (q : Option String) (e : Entry) :
    (applyClassifier s q e).failedRequirements = e.failedRequirements := by
  unfold applyClassifier
  by_cases h : s = "fail" ∧ q = some "q_onlyLabel"
  · simp [h.1, h.2]
  · simp [if_neg h]

/-- The classifier update never touches the recommendation failure set. -/
theorem applyClassifier_failedRecommendations (s : String) (q : Option String) (e : Entry) :
    (applyClassifier s q e).failedRecommendations = e.failedRecommendations := by
  unfold applyClassifier
  by_cases h : s = "fail" ∧ q = some "q_onlyLabel"
  · simp [h.1, h.2]
  · simp [if_neg h]

/-- The per-row profile update keeps the resource identifier: the old
profile's when one exists, the row's normalized resource otherwise. -/
theorem stepEntry_resource (reqType : List (String × String)) (row : ResultRow)
    (old : Option Entry) :
    (stepEntry reqType row old).resource =
      (match old with
       | some e => e.resource
       | none => normRes row) := by
  unfold stepEntry
  rw [applyClassifier_resource, applyFailure_resource]
  cases old <;> rfl

/-- The per-row profile update sets the uncurated flag exactly when the
row is a failing `q_onlyLabel` record, and keeps the old flag otherwise. -/
theorem stepEntry_uncurated (reqType : List (String × String)) (row : ResultRow)
    (old : Option Entry) :
    (stepEntry reqType row old).flags.uncurated =
      (optFlag old ||
        (decide (jsOrDefault row.status "fail" = "fail") &&
         decide (jsOrNull row.queryId = some "q_onlyLabel"))) := by
  unfold stepEntry
  rw [applyClassifier_uncurated, applyFailure_flags]
  cases old <;> rfl

/-- One row-loop iteration changes the per-resource map only at the row's
normalized resource key, where it stores the updated profile. -/
theorem findVal_processRow (reqType : List (String × String)) (per : List (String × Entry))
    (row : ResultRow) (k : String) :
    findVal k (processRow reqType per row) =
      if normRes row = k then some (stepEntry reqType row (findVal k per))
      else findVal k per := by
  unfold processRow
  rw [findVal_setVal]
  by_cases h : jsOrDefault row.resource "urn:resource:unknown" = k
  · rw [if_pos (show normRes row = k from h), if_pos h, h]
  · rw [if_neg (show ¬ normRes row = k from h), if_neg h]

/-- Unfolding one step of `entryFold`. -/
theorem entryFold_cons (reqType : List (String × String)) (k : String) (row : ResultRow)
    (rest : List ResultRow) (o : Option Entry) :
    entryFold reqType k (row :: rest) o =
      entryFold reqType k rest
        (if normRes row = k then some (stepEntry reqType row o) else o) := rfl

/-- The whole row loop, observed at one key, is `entryFold`. -/
theorem findVal_foldl_processRow (reqType : List (String × String)) (rows : List ResultRow)
    (per : List (String × Entry)) (k : String) :
    findVal k (rows.foldl (processRow reqType) per) =
      entryFold reqType k rows (findVal k per) := by
  induction rows generalizing per with
  | nil => rfl
  | cons row rest ih =>
    rw [List.foldl_cons, ih, entryFold_cons, findVal_processRow]

/-- Rows filed under other resources leave the profile at `k` unchanged. -/
theorem entryFold_of_no_match (reqType : List (String × String)) (k : String)
    (rows : List ResultRow) (o : Option Entry)
    (h : ∀ row ∈ rows, ¬(normRes row = k)) :
    entryFold reqType k rows o = o := by
  induction rows generalizing o with
  | nil => rfl
  | cons row rest ih =>
    rw [entryFold_cons, if_neg (h row (List.mem_cons_self row rest))]
    exact ih o (fun r hr => h r (List.mem_cons_of_mem row hr))

/-- A profile present at `k` stays present through the row loop. -/
theorem entryFold_isSome (reqType : List (String × String)) (k : String)
    (rows : List ResultRow) (o : Option Entry) (h : o.isSome = true) :
    (entryFold reqType k rows o).isSome = true := by
  induction rows generalizing o with
  | nil => exact h
  | cons row rest ih =>
    rw [entryFold_cons]
    by_cases hm : normRes row = k
    · rw [if_pos hm]
      exact ih (some (stepEntry reqType row o)) rfl
    · rw [if_neg hm]
      exact ih o h

/-- The uncurated flag at key `k` after the row loop: the initial flag, or
some processed row is a failing `q_onlyLabel` record filed under `k`. -/
theorem optFlag_entryFold (reqType : List (String × String)) (k : String)
    (rows : List ResultRow) (o : Option Entry) :
    optFlag (entryFold reqType k rows o) =
      (optFlag o || rows.any (uncuratedRecordFor k)) := by
  induction rows generalizing o with
  | nil => simp [entryFold]
  | cons row rest ih =>
    rw [entryFold_cons, List.any_cons, ih]
    have hstep :
        optFlag (if normRes row = k then some (stepEntry reqType row o) else o) =
          (optFlag o || uncuratedRecordFor k row) := by
      by_cases hm : normRes row = k
      · rw [if_pos hm]
        show (stepEntry reqType row o).flags.uncurated = _
        rw [stepEntry_uncurated]
        unfold uncuratedRecordFor
        rw [decide_eq_true hm]
        simp
      · rw [if_neg hm]
        unfold uncuratedRecordFor
        rw [decide_eq_false hm]
        simp
    rw [hstep, Bool.or_assoc]

/-- The resource field of a profile at `k` stays consistent with `k`
through the row loop. -/
theorem entryFold_resource (reqType : List (String × String)) (k : String)
    (rows : List ResultRow) (o : Option Entry) (e : Entry)
    (hinv : ∀ e0, o = some e0 → e0.resource = k)
    (h : entryFold reqType k rows o = some e) : e.resource = k := by
  induction rows generalizing o with
  | nil => exact hinv e h
  | cons row rest ih =>
    rw [entryFold_cons] at h
    by_cases hm : normRes row = k
    · rw [if_pos hm] at h
      refine ih (some (stepEntry reqType row o)) ?_ h
      intro e0 he0
      have hres := stepEntry_resource reqType row o
      rw [(Option.some.injEq _ _).mp he0] at hres
      rw [hres]
      cases o with
      | none => exact hm
      | some e1 => exact hinv e1 rfl
    · rw [if_neg hm] at h
      exact ih o hinv h

/-- The known-resources loop, observed at one key: an existing profile is
kept, an absent key gains a fresh empty profile exactly when it is listed. -/
theorem findVal_addKnown (per : List (String × Entry)) (l : List String) (k : String) :
    findVal k (addKnownResources per (some l)) =
      match findVal k per with
      | some e => some e
      | none => if k ∈ l then some (emptyEntry k) else none := by
  induction l generalizing per with
  | nil =>
    cases h : findVal k per <;> simp [addKnownResources, h]
  | cons i rest ih =>
    show findVal k (addKnownResources
        (if (findVal i per).isSome then per else setVal i (emptyEntry i) per) (some rest)) = _
    by_cases hik : i = k
    · subst hik
      cases h : findVal i per with
      | some e =>
        rw [if_pos (by simp [h])]
        rw [ih per, h]
      | none =>
        rw [if_neg (by simp [h])]
        rw [ih, findVal_setVal, if_pos rfl]
        simp [h]
    · by_cases hs : (findVal i per).isSome = true
      · rw [if_pos hs, ih]
        cases h : findVal k per <;> simp [h, List.mem_cons, hik, Ne.symm hik]
      · rw [if_neg hs, ih, findVal_setVal, if_neg hik]
        cases h : findVal k per <;> simp [h, List.mem_cons, hik, Ne.symm hik]

/-- The known-resources loop with a non-list argument is a no-op, and with
a list never changes an existing profile. -/
theorem findVal_addKnown_none (per : List (String × Entry)) (k : String) :
    findVal k (addKnownResources per none) = findVal k per := rfl

/-- Keys of the per-resource map stay duplicate-free through the row loop. -/
theorem nodup_keysOf_foldl_processRow (reqType : List (String × String))
    (rows : List ResultRow) (per : List (String × Entry))
    (h : (keysOf per).Nodup) :
    (keysOf (rows.foldl (processRow reqType) per)).Nodup := by
  induction rows generalizing per with
  | nil => exact h
  | cons row rest ih =>
    rw [List.foldl_cons]
    exact ih _ (nodup_keysOf_setVal _ _ _ h)

/-- Keys of the per-resource map stay duplicate-free through the
known-resources loop. -/
theorem nodup_keysOf_addKnown (per : List (String × Entry)) (all : Option (List String))
    (h : (keysOf per).Nodup) : (keysOf (addKnownResources per all)).Nodup := by
  cases all with
  | none => exact h
  | some l =>
    induction l generalizing per with
    | nil => exact h
    | cons i rest ih =>
      show (keysOf (addKnownResources
          (if (findVal i per).isSome then per else setVal i (emptyEntry i) per) (some rest))).Nodup
      by_cases hs : (findVal i per).isSome
      · rw [if_pos hs]
        exact ih per h
      · rw [if_neg hs]
        exact ih _ (nodup_keysOf_setVal _ _ _ h)

/-- Every profile stored in the per-resource map built by the row loop
carries its own key as resource. -/
theorem resourceInv_foldl_processRow (reqType : List (String × String))
    (rows : List ResultRow) (per : List (String × Entry))
    (hinv : ∀ kv ∈ per, (kv.2 : Entry).resource = kv.1) :
    ∀ kv ∈ rows.foldl (processRow reqType) per, (kv.2 : Entry).resource = kv.1 := by
  induction rows generalizing per with
  | nil => exact hinv
  | cons row rest ih =>
    rw [List.foldl_cons]
    refine ih _ ?_
    intro kv hkv
    rcases mem_setVal kv _ _ per hkv with h1 | h1
    · rw [h1]
      show (stepEntry reqType row (findVal (jsOrDefault row.resource "urn:resource:unknown") per)).resource = _
      rw [stepEntry_resource]
      cases h2 : findVal (jsOrDefault row.resource "urn:resource:unknown") per with
      | none => rfl
      | some e1 => exact hinv _ (findVal_mem _ _ _ h2)
    · exact hinv kv h1

/-- Every profile stored after the known-resources loop carries its own
key as resource. -/
theorem resourceInv_addKnown (per : List (String × Entry)) (all : Option (List String))
    (hinv : ∀ kv ∈ per, (kv.2 : Entry).resource = kv.1) :
    ∀ kv ∈ addKnownResources per all, (kv.2 : Entry).resource = kv.1 := by
  cases all with
  | none => exact hinv
  | some l =>
    induction l generalizing per with
    | nil => exact hinv
    | cons i rest ih =>
      show ∀ kv ∈ addKnownResources
          (if (findVal i per).isSome then per else setVal i (emptyEntry i) per) (some rest), _
      by_cases hs : (findVal i per).isSome
      · rw [if_pos hs]
        exact ih per hinv
      · rw [if_neg hs]
        refine ih _ ?_
        intro kv hkv
        rcases mem_setVal kv _ _ per hkv with h1 | h1
        · rw [h1]
          rfl
        · exact hinv kv h1

/-- The report of a profile keeps its resource and failure lists. -/
theorem finalizeEntry_fields (e : Entry) :
    (finalizeEntry e).resource = e.resource ∧
    (finalizeEntry e).failedRequirements = e.failedRequirements ∧
    (finalizeEntry e).failedRecommendations = e.failedRecommendations ∧
    (finalizeEntry e).statusIri =
      statusPolicy (!e.failedRequirements.isEmpty) (!e.failedRecommendations.isEmpty) e.flags := by
  exact ⟨rfl, rfl, rfl, rfl⟩

/-- The source's `statusPolicy` is exactly the specification's four-case
priority rule applied to the uncurated flag and the two failure bits. -/
theorem statusPolicy_eq_fourCaseRule (b1 b2 : Bool) (f : Flags) :
    statusPolicy b1 b2 f = fourCaseRule f.uncurated b1 b2 := by
  obtain ⟨u, d, r⟩ := f
  cases u <;> cases b1 <;> cases b2 <;> rfl

/-- Filtering the per-entity reports for one resource name extracts
exactly the report of the profile stored at that key. -/
theorem filter_finalize (per : List (String × Entry)) (k : String)
    (hinv : ∀ kv ∈ per, (kv.2 : Entry).resource = kv.1)
    (hnd : (keysOf per).Nodup) :
    (per.map (fun p => finalizeEntry p.2)).filter (fun r => decide (r.resource = k)) =
      (match findVal k per with
       | some e => [finalizeEntry e]
       | none => []) := by
  induction per with
  | nil => rfl
  | cons kv rest ih =>
    have hnd2 := List.nodup_cons.mp (show (kv.1 :: keysOf rest).Nodup from hnd)
    have hres : (finalizeEntry kv.2).resource = kv.1 := hinv kv (List.mem_cons_self kv rest)
    rw [List.map_cons, List.filter_cons]
    by_cases hk : kv.1 = k
    · rw [if_pos (by rw [hres, hk]; simp)]
      have hnone : findVal k rest = none := by
        rw [findVal_eq_none_iff]
        rw [← hk]
        exact hnd2.1
      have hrest :
          (rest.map (fun p => finalizeEntry p.2)).filter (fun r => decide (r.resource = k)) = [] := by
        rw [ih (fun p hp => hinv p (List.mem_cons_of_mem kv hp)) hnd2.2, hnone]
      rw [hrest]
      show _ = (match findVal k (kv :: rest) with
        | some e => [finalizeEntry e]
        | none => [])
      rw [show findVal k (kv :: rest) = some kv.2 by simp [findVal, hk]]
    · rw [if_neg (by rw [hres]; simp [hk])]
      rw [ih (fun p hp => hinv p (List.mem_cons_of_mem kv hp)) hnd2.2]
      show _ = (match findVal k (kv :: rest) with
        | some e => [finalizeEntry e]
        | none => [])
      rw [show findVal k (kv :: rest) = findVal k rest by simp [findVal, hk]]

/-- The per-requirement update keeps id, type and weight. -/
theorem stepReqEntry_const (row : ResultRow) (e : ReqEntry) :
    (stepReqEntry row e).id = e.id ∧ (stepReqEntry row e).type = e.type ∧
    (stepReqEntry row e).weight = e.weight := by
  unfold stepReqEntry
  by_cases hs : jsOrDefault row.status "fail" = "fail" <;> simp [hs]

/-- The per-requirement update marks the profile failed exactly when the
record fails (a missing status defaults to `fail`). -/
theorem stepReqEntry_hasFail (row : ResultRow) (e : ReqEntry) :
    (stepReqEntry row e).hasFail =
      (e.hasFail || decide (jsOrDefault row.status "fail" = "fail")) := by
  unfold stepReqEntry
  by_cases hs : jsOrDefault row.status "fail" = "fail" <;> simp [hs]

/-- The row loop of the document aggregator, observed at one key: the
profile at `rid` is rewritten by `stepReqEntry` exactly for rows matching
`rid`, and keys never appear or disappear. -/
theorem findVal_processReportRow (reqs : List (String × ReqEntry)) (row : ResultRow)
    (k : String) :
    findVal k (processReportRow reqs row) =
      (findVal k reqs).map
        (fun e => if jsOrNull row.requirementId = some k then stepReqEntry row e else e) := by
  cases hrid : jsOrNull row.requirementId with
  | none =>
    simp only [processReportRow, hrid]
    cases h : findVal k reqs <;> simp [h]
  | some rid =>
    cases hfound : findVal rid reqs with
    | none =>
      simp only [processReportRow, hrid, hfound]
      by_cases hk : rid = k
      · subst hk
        simp [hfound]
      · cases h : findVal k reqs <;> simp [h, hk]
    | some entry =>
      simp only [processReportRow, hrid, hfound]
      rw [findVal_setVal]
      by_cases hk : rid = k
      · subst hk
        rw [if_pos rfl, hfound]
        simp
      · rw [if_neg hk]
        cases h : findVal k reqs <;> simp [h, hk]

/-- Unfolding one step of `reqEntryFold`. -/
theorem reqEntryFold_cons (k : String) (row : ResultRow) (rest : List ResultRow)
    (e : ReqEntry) :
    reqEntryFold k (row :: rest) e =
      reqEntryFold k rest
        (if jsOrNull row.requirementId = some k then stepReqEntry row e else e) := rfl

/-- The whole row loop of the document aggregator, observed at one key,
is `reqEntryFold`. -/
theorem findVal_foldl_processReportRow (rows : List ResultRow)
    (reqs : List (String × ReqEntry)) (k : String) :
    findVal k (rows.foldl processReportRow reqs) =
      (findVal k reqs).map (reqEntryFold k rows) := by
  induction rows generalizing reqs with
  | nil =>
    cases h : findVal k reqs <;> simp [h, reqEntryFold]
  | cons row rest ih =>
    rw [List.foldl_cons, ih, findVal_processReportRow]
    cases h : findVal k reqs with
    | none => simp
    | some e => simp [reqEntryFold_cons]

/-- Rows matching other requirements leave the profile at `k` unchanged. -/
theorem reqEntryFold_of_no_match (k : String) (rows : List ResultRow) (e : ReqEntry)
    (h : ∀ row ∈ rows, ¬(jsOrNull row.requirementId = some k)) :
    reqEntryFold k rows e = e := by
  induction rows generalizing e with
  | nil => rfl
  | cons row rest ih =>
    rw [reqEntryFold_cons, if_neg (h row (List.mem_cons_self row rest))]
    exact ih e (fun r hr => h r (List.mem_cons_of_mem row hr))

/-- Id, type and weight survive the whole row loop. -/
theorem reqEntryFold_const (k : String) (rows : List ResultRow) (e : ReqEntry) :
    (reqEntryFold k rows e).id = e.id ∧ (reqEntryFold k rows e).type = e.type ∧
    (reqEntryFold k rows e).weight = e.weight := by
  induction rows generalizing e with
  | nil => exact ⟨rfl, rfl, rfl⟩
  | cons row rest ih =>
    rw [reqEntryFold_cons]
    by_cases hm : jsOrNull row.requirementId = some k
    · rw [if_pos hm]
      rcases ih (stepReqEntry row e) with ⟨h1, h2, h3⟩
      rcases stepReqEntry_const row e with ⟨g1, g2, g3⟩
      exact ⟨h1.trans g1, h2.trans g2, h3.trans g3⟩
    · rw [if_neg hm]
      exact ih e

/-- The failed bit after the row loop: the initial bit, or some processed
row is a failing record matching `k`. -/
theorem reqEntryFold_hasFail (k : String) (rows : List ResultRow) (e : ReqEntry) :
    (reqEntryFold k rows e).hasFail =
      (e.hasFail || rows.any (matchingFailRecord k)) := by
  induction rows generalizing e with
  | nil => simp [reqEntryFold]
  | cons row rest ih =>
    rw [reqEntryFold_cons, List.any_cons, ih]
    have hstep :
        (if jsOrNull row.requirementId = some k then stepReqEntry row e else e).hasFail =
          (e.hasFail || matchingFailRecord k row) := by
      by_cases hm : jsOrNull row.requirementId = some k
      · rw [if_pos hm, stepReqEntry_hasFail]
        unfold matchingFailRecord
        rw [decide_eq_true hm]
        simp
      · rw [if_neg hm]
        unfold matchingFailRecord
        rw [decide_eq_false hm]
        simp
    rw [hstep, Bool.or_assoc]

/-- Keys are unchanged by one iteration of the document-aggregator row
loop. -/
theorem keysOf_processReportRow (reqs : List (String × ReqEntry)) (row : ResultRow) :
    keysOf (processReportRow reqs row) = keysOf reqs := by
  cases hrid : jsOrNull row.requirementId with
  | none =>
    simp only [processReportRow, hrid]
  | some rid =>
    cases hfound : findVal rid reqs with
    | none =>
      simp only [processReportRow, hrid, hfound]
    | some entry =>
      simp only [processReportRow, hrid, hfound]
      refine keysOf_setVal_mem rid _ reqs ?_
      rw [← findVal_isSome_iff, hfound]
      rfl

/-- Keys are unchanged by the whole document-aggregator row loop. -/
theorem keysOf_foldl_processReportRow (rows : List ResultRow)
    (reqs : List (String × ReqEntry)) :
    keysOf (rows.foldl processReportRow reqs) = keysOf reqs := by
  induction rows generalizing reqs with
  | nil => rfl
  | cons row rest ih =>
    rw [List.foldl_cons, ih, keysOf_processReportRow]

/-- Seeding keeps lookups at keys no declaration carries. -/
theorem findVal_seed_of_forall_ne (l : List Requirement) (acc : List (String × ReqEntry))
    (k : String) (h : ∀ r ∈ l, r.id ≠ k) :
    findVal k (l.foldl (fun m r => setVal r.id (seedEntry r) m) acc) = findVal k acc := by
  induction l generalizing acc with
  | nil => rfl
  | cons r rest ih =>
    rw [List.foldl_cons, ih _ (fun x hx => h x (List.mem_cons_of_mem r hx)),
      findVal_setVal, if_neg (h r (List.mem_cons_self r rest))]

/-- With duplicate-free declaration ids, each declaration is seeded as
stated. -/
theorem findVal_seed_self (l : List Requirement) (acc : List (String × ReqEntry))
    (req : Requirement) (hnd : (l.map (fun r => r.id)).Nodup) (hmem : req ∈ l) :
    findVal req.id (l.foldl (fun m r => setVal r.id (seedEntry r) m) acc) =
      some (seedEntry req) := by
  induction l generalizing acc with
  | nil => simp at hmem
  | cons r rest ih =>
    have hnd2 := List.nodup_cons.mp (show (r.id :: rest.map (fun x => x.id)).Nodup from hnd)
    rcases List.mem_cons.mp hmem with h1 | h1
    · subst h1
      rw [List.foldl_cons]
      have hne : ∀ x ∈ rest, x.id ≠ req.id := by
        intro x hx he
        exact hnd2.1 (he ▸ List.mem_map_of_mem (fun r => r.id) hx)
      rw [findVal_seed_of_forall_ne rest _ req.id hne, findVal_setVal, if_pos rfl]
    · rw [List.foldl_cons]
      exact ih _ hnd2.2 h1

/-- A key carried by some declaration is present after seeding. -/
theorem isSome_findVal_seed (l : List Requirement) (acc : List (String × ReqEntry))
    (k : String) (h : k ∈ l.map (fun r => r.id) ∨ (findVal k acc).isSome = true) :
    (findVal k (l.foldl (fun m r => setVal r.id (seedEntry r) m) acc)).isSome = true := by
  induction l generalizing acc with
  | nil =>
    rcases h with h | h
    · simp at h
    · exact h
  | cons r rest ih =>
    rw [List.foldl_cons]
    rcases h with h | h
    · rcases List.mem_cons.mp (show k ∈ r.id :: rest.map (fun x => x.id) from h) with h1 | h1
      · refine ih _ (Or.inr ?_)
        rw [findVal_setVal, if_pos h1.symm]
        rfl
      · exact ih _ (Or.inl h1)
    · refine ih _ (Or.inr ?_)
      rw [findVal_setVal]
      by_cases hk : r.id = k
      · rw [if_pos hk]
        rfl
      · rw [if_neg hk]
        exact h

/-- Every profile stored by seeding starts unfailed, with no failing
resources, carrying its own key as id. -/
theorem seedInv (l : List Requirement) (acc : List (String × ReqEntry))
    (hacc : ∀ k e, findVal k acc = some e →
      (e : ReqEntry).hasFail = false ∧ e.failingResources = [] ∧ e.id = k) :
    ∀ k e, findVal k (l.foldl (fun m r => setVal r.id (seedEntry r) m) acc) = some e →
      (e : ReqEntry).hasFail = false ∧ e.failingResources = [] ∧ e.id = k := by
  induction l generalizing acc with
  | nil => exact hacc
  | cons r rest ih =>
    rw [List.foldl_cons]
    refine ih _ ?_
    intro k e he
    rw [findVal_setVal] at he
    by_cases hk : r.id = k
    · rw [if_pos hk] at he
      have : seedEntry r = e := (Option.some.injEq _ _).mp he
      rw [← this]
      exact ⟨rfl, rfl, hk⟩
    · rw [if_neg hk] at he
      exact hacc k e he

/-- Seeding from the empty map yields duplicate-free keys. -/
theorem nodup_keysOf_seed (l : List Requirement) (acc : List (String × ReqEntry))
    (h : (keysOf acc).Nodup) :
    (keysOf (l.foldl (fun m r => setVal r.id (seedEntry r) m) acc)).Nodup := by
  induction l generalizing acc with
  | nil => exact h
  | cons r rest ih =>
    rw [List.foldl_cons]
    exact ih _ (nodup_keysOf_setVal _ _ _ h)

/-- Filtering the document report's requirement list for one id extracts
exactly the report of the profile stored at that key. -/
theorem filter_toReqReport (reqs : List (String × ReqEntry)) (k : String)
    (hinv : ∀ kv ∈ reqs, (kv.2 : ReqEntry).id = kv.1)
    (hnd : (keysOf reqs).Nodup) :
    (reqs.map (fun p => toReqReport p.2)).filter (fun e => decide (e.id = k)) =
      (match findVal k reqs with
       | some e => [toReqReport e]
       | none => []) := by
  induction reqs with
  | nil => rfl
  | cons kv rest ih =>
    have hnd2 := List.nodup_cons.mp (show (kv.1 :: keysOf rest).Nodup from hnd)
    have hid : (toReqReport kv.2).id = kv.1 := hinv kv (List.mem_cons_self kv rest)
    rw [List.map_cons, List.filter_cons]
    by_cases hk : kv.1 = k
    · rw [if_pos (by rw [hid, hk]; simp)]
      have hnone : findVal k rest = none := by
        rw [findVal_eq_none_iff, ← hk]
        exact hnd2.1
      rw [ih (fun p hp => hinv p (List.mem_cons_of_mem kv hp)) hnd2.2, hnone]
      show _ = (match findVal k (kv :: rest) with
        | some e => [toReqReport e]
        | none => [])
      rw [show findVal k (kv :: rest) = some kv.2 by simp [findVal, hk]]
    · rw [if_neg (by rw [hid]; simp [hk])]
      rw [ih (fun p hp => hinv p (List.mem_cons_of_mem kv hp)) hnd2.2]
      show _ = (match findVal k (kv :: rest) with
        | some e => [toReqReport e]
        | none => [])
      rw [show findVal k (kv :: rest) = findVal k rest by simp [findVal, hk]]

/-- The id-consistency of the seeded-then-updated requirement map. -/
theorem reqIdInv (results : List ResultRow) (manifest : Manifest) :
    ∀ kv ∈ results.foldl processReportRow (seedRequirements manifest),
      (kv.2 : ReqEntry).id = kv.1 := by
  intro kv hkv
  have hnd : (keysOf (results.foldl processReportRow (seedRequirements manifest))).Nodup := by
    rw [keysOf_foldl_processReportRow]
    exact nodup_keysOf_seed _ [] List.nodup_nil
  have hfv := mem_findVal kv.1 kv.2 _ hnd hkv
  rw [findVal_foldl_processReportRow] at hfv
  cases h0 : findVal kv.1 (seedRequirements manifest) with
  | none =>
    rw [h0] at hfv
    simp at hfv
  | some e0 =>
    rw [h0] at hfv
    have he : reqEntryFold kv.1 results e0 = kv.2 := by simpa using hfv
    have hid0 : e0.id = kv.1 :=
      (seedInv manifest.requirements [] (by intro k e he2; simp [findVal] at he2) kv.1 e0 h0).2.2
    rw [← he, (reqEntryFold_const kv.1 results e0).1, hid0]

/-- A row filed under `k` makes the profile at `k` present. -/
theorem entryFold_isSome_of_match (reqType : List (String × String)) (k : String)
    (rows : List ResultRow) (o : Option Entry)
    (h : ∃ row ∈ rows, normRes row = k) :
    (entryFold reqType k rows o).isSome = true := by
  induction rows generalizing o with
  | nil =>
    rcases h with ⟨r, hr, _⟩
    simp at hr
  | cons row rest ih =>
    rw [entryFold_cons]
    by_cases hm : normRes row = k
    · rw [if_pos hm]
      exact entryFold_isSome reqType k rest _ rfl
    · rw [if_neg hm]
      refine ih o ?_
      rcases h with ⟨r, hr, hrk⟩
      rcases List.mem_cons.mp hr with h1 | h1
      · exact absurd (h1 ▸ hrk) hm
      · exact ⟨r, h1, hrk⟩

/-- The per-resource map the output loop reads. -/
def finalPer (results : List ResultRow) (manifest : Manifest)
    (allResources : Option (List String)) : List (String × Entry) :=
  addKnownResources (results.foldl (processRow (buildRequirementTypeMap manifest)) [])
    allResources

/-- `computePerResourceCuration` is the output projection of `finalPer`. -/
theorem computePerResourceCuration_eq (results : List ResultRow) (manifest : Manifest)
    (allResources : Option (List String)) :
    computePerResourceCuration results manifest allResources =
      (finalPer results manifest allResources).map (fun p => finalizeEntry p.2) := rfl

/-- The keys of the final per-resource map are duplicate-free. -/
theorem finalPer_nodup (results : List ResultRow) (manifest : Manifest)
    (allResources : Option (List String)) :
    (keysOf (finalPer results manifest allResources)).Nodup :=
  nodup_keysOf_addKnown _ _
    (nodup_keysOf_foldl_processRow _ _ [] List.nodup_nil)

/-- Every profile of the final per-resource map carries its key as
resource. -/
theorem finalPer_resourceInv (results : List ResultRow) (manifest : Manifest)
    (allResources : Option (List String)) :
    ∀ kv ∈ finalPer results manifest allResources, (kv.2 : Entry).resource = kv.1 :=
  resourceInv_addKnown _ _
    (resourceInv_foldl_processRow _ _ [] (by intro kv hkv; simp at hkv))

/-- The uncurated flag stored at key `k` of the final per-resource map is
exactly the existence of a failing `q_onlyLabel` record filed under `k`. -/
theorem optFlag_finalPer (results : List ResultRow) (manifest : Manifest)
    (allResources : Option (List String)) (k : String) :
    optFlag (findVal k (finalPer results manifest allResources)) =
      results.any (uncuratedRecordFor k) := by
  have hrow : findVal k (results.foldl (processRow (buildRequirementTypeMap manifest)) []) =
      entryFold (buildRequirementTypeMap manifest) k results none :=
    findVal_foldl_processRow _ _ [] k
  have hflag : optFlag (entryFold (buildRequirementTypeMap manifest) k results none) =
      results.any (uncuratedRecordFor k) := by
    rw [optFlag_entryFold]
    rfl
  cases allResources with
  | none =>
    show optFlag (findVal k (addKnownResources _ none)) = _
    rw [findVal_addKnown_none, hrow, hflag]
  | some l =>
    show optFlag (findVal k (addKnownResources _ (some l))) = _
    rw [findVal_addKnown]
    cases h0 : findVal k (results.foldl (processRow (buildRequirementTypeMap manifest)) []) with
    | some e =>
      show e.flags.uncurated = _
      have : optFlag (some e) = results.any (uncuratedRecordFor k) := by
        rw [← h0, hrow, hflag]
      exact this
    | none =>
      have hnone : results.any (uncuratedRecordFor k) = false := by
        by_cases hany : results.any (uncuratedRecordFor k) = true
        · exfalso
          rcases List.any_eq_true.mp hany with ⟨row, hr, hu⟩
          have hmatch : normRes row = k := by
            have := (Bool.and_eq_true _ _).mp ((Bool.and_eq_true _ _).mp hu).1
            exact of_decide_eq_true this.1
          have := entryFold_isSome_of_match (buildRequirementTypeMap manifest) k results none
            ⟨row, hr, hmatch⟩
          rw [← hrow, h0] at this
          simp at this
        · exact Bool.eq_false_iff.mpr hany
      by_cases hl : k ∈ l
      · rw [if_pos hl]
        show emptyFlags.uncurated = _
        rw [hnone]
        rfl
      · rw [if_neg hl]
        rw [hnone]
        rfl

/-- The status of every produced per-entity report follows the four-case
rule, with the uncurated bit characterized from the input records. -/
theorem perReport_status_eq (results : List ResultRow) (manifest : Manifest)
    (allResources : Option (List String)) (r : Report)
    (hr : r ∈ computePerResourceCuration results manifest allResources) :
    r.statusIri =
      fourCaseRule (results.any (uncuratedRecordFor r.resource))
        (!r.failedRequirements.isEmpty) (!r.failedRecommendations.isEmpty) := by
  rw [computePerResourceCuration_eq] at hr
  rcases List.mem_map.mp hr with ⟨kv, hkv, hfin⟩
  have hres : kv.2.resource = kv.1 := finalPer_resourceInv results manifest allResources kv hkv
  have hfv : findVal kv.1 (finalPer results manifest allResources) = some kv.2 :=
    mem_findVal _ _ _ (finalPer_nodup results manifest allResources) hkv
  have hflag : kv.2.flags.uncurated = results.any (uncuratedRecordFor kv.1) := by
    have h := optFlag_finalPer results manifest allResources kv.1
    rw [hfv] at h
    exact h
  subst hfin
  show (finalizeEntry kv.2).statusIri = _
  rw [(finalizeEntry_fields kv.2).2.2.2, statusPolicy_eq_fourCaseRule, hflag,
    (finalizeEntry_fields kv.2).1, hres, (finalizeEntry_fields kv.2).2.1,
    (finalizeEntry_fields kv.2).2.2.1]

/-- The four-case rule lands on `uncurated` exactly when the flag is set. -/
theorem fourCaseRule_eq_uncurated_iff (u m a : Bool) :
    fourCaseRule u m a = IAO_UNCURATED ↔ u = true := by
  cases u <;> cases m <;> cases a <;> simp [fourCaseRule] <;> decide

/-- C1: every entity profile produced by `computePerResourceCuration`
derives its status by the four-case priority rule, first match wins: the
uncurated flag (set by a failing `q_onlyLabel` record for this entity)
forces `uncurated`; otherwise a non-empty failed mandatory set forces
`metadata-incomplete` regardless of advisory failures; otherwise a
non-empty failed advisory set gives `metadata-complete`; otherwise
`pending-final-vetting`. -/
theorem computePerResourceCuration_status_rule (results : List ResultRow)
    (manifest : Manifest) (allResources : Option (List String)) (r : Report)
    (hr : r ∈ computePerResourceCuration results manifest allResources) :
    r.statusIri =
      fourCaseRule (results.any (uncuratedRecordFor r.resource))
        (!r.failedRequirements.isEmpty) (!r.failedRecommendations.isEmpty) :=
  perReport_status_eq results manifest allResources r hr

/-- C10: a produced report carries the `uncurated` status exactly when
some record for its entity has queryId `q_onlyLabel` and failing status
(a missing status defaults to `fail`); in particular a passing
`q_onlyLabel` record never sets the flag. -/
theorem q_onlyLabel_flag_only_on_fail (results : List ResultRow) (manifest : Manifest)
    (allResources : Option (List String)) (r : Report)
    (hr : r ∈ computePerResourceCuration results manifest allResources) :
    r.statusIri = IAO_UNCURATED ↔
      results.any (uncuratedRecordFor r.resource) = true := by
  rw [perReport_status_eq results manifest allResources r hr]
  exact fourCaseRule_eq_uncurated_iff _ _ _

/-- C7: with the full known-entity set supplied, the Resource Aggregator
emits exactly one report per known entity, and a known entity with no
records at all gets `pending-final-vetting` with empty failure lists. -/
theorem computePerResourceCuration_known_entities (results : List ResultRow)
    (manifest : Manifest) (l : List String) (iri : String) (hiri : iri ∈ l) :
    ((computePerResourceCuration results manifest (some l)).filter
        (fun r => decide (r.resource = iri))).length = 1
    ∧ ((∀ row ∈ results, ¬(normRes row = iri)) →
        ({ resource := iri, statusIri := IAO_PENDING_FINAL_VETTING,
           statusLabel := "pending final vetting",
           failedRequirements := [], failedRecommendations := [] } : Report)
          ∈ computePerResourceCuration results manifest (some l)) := by
  constructor
  · rw [computePerResourceCuration_eq,
      filter_finalize _ _ (finalPer_resourceInv results manifest (some l))
        (finalPer_nodup results manifest (some l))]
    have hsome : (findVal iri (finalPer results manifest (some l))).isSome = true := by
      show (findVal iri (addKnownResources _ (some l))).isSome = true
      rw [findVal_addKnown]
      cases h0 : findVal iri
          (results.foldl (processRow (buildRequirementTypeMap manifest)) []) with
      | some e => rfl
      | none => rw [if_pos hiri]; rfl
    rcases Option.isSome_iff_exists.mp hsome with ⟨e, he⟩
    rw [he]
    rfl
  · intro hno
    have hrows : findVal iri
        (results.foldl (processRow (buildRequirementTypeMap manifest)) []) = none := by
      rw [findVal_foldl_processRow,
        entryFold_of_no_match (buildRequirementTypeMap manifest) iri results _ hno]
      rfl
    have hfv : findVal iri (finalPer results manifest (some l)) = some (emptyEntry iri) := by
      show findVal iri (addKnownResources _ (some l)) = _
      rw [findVal_addKnown, hrows, if_pos hiri]
    have hmem : (iri, emptyEntry iri) ∈ finalPer results manifest (some l) :=
      findVal_mem _ _ _ hfv
    rw [computePerResourceCuration_eq]
    refine List.mem_map.mpr ⟨(iri, emptyEntry iri), hmem, ?_⟩
    rfl

/-- C5: an enumerative (SELECT) declaration yields exactly one record per
returned row, every record carries status `fail` whatever the declared
polarity, and no `pass` record is ever emitted. -/
theorem evaluateSingleQuery_select_always_fail (store : List Quad) (qMeta : QueryMeta)
    (selectRows : List BindingRow) (askOk : Bool) (hkind : qMeta.kind = some "SELECT") :
    (evaluateSingleQuery store qMeta selectRows askOk).length = selectRows.length
    ∧ (evaluateSingleQuery store qMeta selectRows askOk).map (fun r => r.details) =
        selectRows.map Details.rowDetails
    ∧ ∀ r ∈ evaluateSingleQuery store qMeta selectRows askOk,
        r.status = "fail" ∧ ¬(r.status = "pass") := by
  simp only [evaluateSingleQuery, hkind]
  rw [if_pos trivial]
  refine ⟨List.length_map _ _, ?_, ?_⟩
  · rw [List.map_map]
    rfl
  · intro r hr
    rcases List.mem_map.mp hr with ⟨row, hrow, hre⟩
    have hst : r.status = "fail" := by
      rw [← hre]
      show (if qMeta.polarity = some "matchMeansFail" then "fail" else "fail") = "fail"
      by_cases h : qMeta.polarity = some "matchMeansFail" <;> simp [h]
    refine ⟨hst, ?_⟩
    rw [hst]
    decide

/-- C6: an existential-check (ASK) declaration yields exactly one record,
scoped to the document identifier discovered in the store (sentinel
`urn:ontology:unknown` when no ontology-typed subject exists), with the
status given by the three-case polarity rule. -/
theorem evaluateSingleQuery_ask_polarity (store : List Quad) (qMeta : QueryMeta)
    (selectRows : List BindingRow) (askOk : Bool) (hkind : qMeta.kind = some "ASK") :
    evaluateSingleQuery store qMeta selectRows askOk =
      [{ resource := some (guessOntologyIri store), queryId := qMeta.id,
         requirementId := jsOrNull qMeta.checksConformityTo,
         status := askPolarityRule qMeta.polarity askOk,
         severity := jsOrDefault qMeta.severity "info",
         scope := jsOrDefault qMeta.scope "resource",
         details := Details.askDetails askOk }]
    ∧ ((∀ q ∈ store, ¬(q.predicate = RDF_TYPE ∧ q.object = OWL_ONTOLOGY)) →
        guessOntologyIri store = "urn:ontology:unknown") := by
  constructor
  · simp only [evaluateSingleQuery, hkind]
    rw [if_pos trivial]
    rfl
  · intro hnone
    unfold guessOntologyIri
    have hfind : store.find?
        (fun q => q.predicate == RDF_TYPE && q.object == OWL_ONTOLOGY) = none := by
      rw [List.find?_eq_none]
      intro q hq
      simp only [Bool.and_eq_true, beq_iff_eq]
      intro hcon
      exact hnone q hq ⟨hcon.1, hcon.2⟩
    rw [hfind]

/-- The source's entity-extraction for SELECT rows equals the amended
fallback chain (designated variable with a truthy value, then a truthy
`resource` variable, then the first bound value, else null). -/
theorem extractResource_eq_amended (rv : Option String) (row : BindingRow) :
    extractResource (jsOrDefault rv "resource") row = specEntityChainAmended rv row := by
  cases rv with
  | none =>
    by_cases h : jsTruthy (findVal "resource" row) = true <;>
      simp [extractResource, specEntityChainAmended, jsOrDefault, jsOrNull, h]
  | some v =>
    by_cases hv : v = ""
    · subst hv
      by_cases h : jsTruthy (findVal "resource" row) = true <;>
        simp [extractResource, specEntityChainAmended, jsOrDefault, jsOrNull, h]
    · simp [extractResource, specEntityChainAmended, jsOrDefault, jsOrNull, hv]

/-- C3 (amended): for every SELECT declaration the emitted records'
entity identifiers follow the amended fallback chain, row by row. -/
theorem evaluateSingleQuery_select_entity_chain (store : List Quad) (qMeta : QueryMeta)
    (selectRows : List BindingRow) (askOk : Bool) (hkind : qMeta.kind = some "SELECT") :
    (evaluateSingleQuery store qMeta selectRows askOk).map (fun r => r.resource) =
      selectRows.map (specEntityChainAmended qMeta.resourceVar) := by
  simp only [evaluateSingleQuery, hkind]
  rw [if_pos trivial, List.map_map]
  have hfun :
      (fun row => extractResource (jsOrDefault qMeta.resourceVar "resource") row) =
        specEntityChainAmended qMeta.resourceVar :=
    funext (fun row => extractResource_eq_amended qMeta.resourceVar row)
  show selectRows.map
      (fun row => extractResource (jsOrDefault qMeta.resourceVar "resource") row) = _
  rw [hfun]

/-- The declaration used by the entity-chain counterexample: a SELECT
query whose manifest designates the variable `x`. -/
def qMetaChainCx : QueryMeta :=
  { id := "q1", kind := some "SELECT", polarity := none, severity := none,
    scope := none, checksConformityTo := none, resourceVar := some "x" }

/-- The binding row of the entity-chain counterexample: the designated
variable `x` is bound (to the empty string) and another variable is bound
first. -/
def rowChainCx : BindingRow := [("a", "v"), ("x", "")]

/-- C3 (counterexample): on a row whose designated variable is bound to
the empty string, the normalizer does not use that bound value as the
claim's chain dictates (step a: designated variable present), but falls
through to the first bound variable. -/
theorem entity_chain_counterexample :
    (evaluateSingleQuery [] qMetaChainCx [rowChainCx] false).map (fun r => r.resource) =
      [some "v"]
    ∧ [rowChainCx].map (specEntityChain qMetaChainCx.resourceVar) = [some ""]
    ∧ ¬((some "v" : Option String) = some "") :=
  ⟨rfl, rfl, by decide⟩

/-- The declaration loop of `evaluateAllQueries`, started from an
arbitrary accumulator, appends to it. -/
theorem evaluateAllQueries_acc (loadText : QueryMeta → Except Unit String)
    (runQuery : QueryMeta → String → Except Unit (List EngineRecord))
    (qs : List QueryMeta) (acc : List EngineRecord) :
    qs.foldl
      (fun acc q =>
        match runDeclaration loadText runQuery q with
        | Except.ok recs => acc ++ recs
        | Except.error _ => acc) acc =
      acc ++ evaluateAllQueries loadText runQuery qs := by
  induction qs generalizing acc with
  | nil => simp [evaluateAllQueries]
  | cons q rest ih =>
    rw [List.foldl_cons, ih]
    have hgoal : evaluateAllQueries loadText runQuery (q :: rest) =
        (match runDeclaration loadText runQuery q with
         | Except.ok recs => ([] : List EngineRecord) ++ recs
         | Except.error _ => ([] : List EngineRecord)) ++
          evaluateAllQueries loadText runQuery rest := by
      show List.foldl _ _ (q :: rest) = _
      rw [List.foldl_cons, ih]
    rw [hgoal]
    cases runDeclaration loadText runQuery q <;> simp

/-- C9: a declaration whose loading or execution throws contributes no
records, while the records of the declarations before and after it are
collected unchanged. -/
theorem evaluateAllQueries_failure_isolated (loadText : QueryMeta → Except Unit String)
    (runQuery : QueryMeta → String → Except Unit (List EngineRecord))
    (pre post : List QueryMeta) (q : QueryMeta)
    (h : runDeclaration loadText runQuery q = Except.error ()) :
    evaluateAllQueries loadText runQuery (pre ++ q :: post) =
      evaluateAllQueries loadText runQuery pre ++
        evaluateAllQueries loadText runQuery post := by
  show List.foldl _ [] (pre ++ q :: post) = _
  rw [List.foldl_append, List.foldl_cons]
  simp only [h]
  exact evaluateAllQueries_acc loadText runQuery post _

/-- The requirement map the document aggregator's output loop reads. -/
def finalReqs (results : List ResultRow) (manifest : Manifest) :
    List (String × ReqEntry) :=
  results.foldl processReportRow (seedRequirements manifest)

/-- The requirement list of the document report is the projection of
`finalReqs`. -/
theorem computeOntologyReport_requirements (results : List ResultRow) (manifest : Manifest)
    (ontologyIri : Option String) :
    (computeOntologyReport results manifest ontologyIri).requirements =
      (finalReqs results manifest).map (fun p => toReqReport p.2) := rfl

/-- The document status is the source's `statusPolicy` applied to the two
failure scans with an empty flags object. -/
theorem computeOntologyReport_statusIri (results : List ResultRow) (manifest : Manifest)
    (ontologyIri : Option String) :
    (computeOntologyReport results manifest ontologyIri).statusIri =
      statusPolicy
        ((finalReqs results manifest).any (fun p => p.2.type == "requirement" && p.2.hasFail))
        ((finalReqs results manifest).any (fun p => p.2.type == "recommendation" && p.2.hasFail))
        emptyFlags := rfl

/-- Keys of the final requirement map are duplicate-free. -/
theorem finalReqs_nodup (results : List ResultRow) (manifest : Manifest) :
    (keysOf (finalReqs results manifest)).Nodup := by
  show (keysOf (results.foldl processReportRow (seedRequirements manifest))).Nodup
  rw [keysOf_foldl_processReportRow]
  exact nodup_keysOf_seed _ [] List.nodup_nil

/-- The profile stored at one key of the final requirement map is the
seeded profile pushed through `reqEntryFold`. -/
theorem findVal_finalReqs (results : List ResultRow) (manifest : Manifest) (k : String) :
    findVal k (finalReqs results manifest) =
      (findVal k (seedRequirements manifest)).map (reqEntryFold k results) :=
  findVal_foldl_processReportRow results (seedRequirements manifest) k

/-- A requirement-and-failure scan of the final map equals a scan of the
input records against the seeded requirement kinds. -/
theorem any_type_fail_exchange (results : List ResultRow) (manifest : Manifest) (t : String) :
    ((finalReqs results manifest).any (fun p => p.2.type == t && p.2.hasFail)) = true ↔
      (∃ row ∈ results, ∃ rid, jsOrNull row.requirementId = some rid ∧
        (∃ e0, findVal rid (seedRequirements manifest) = some e0 ∧ e0.type = t) ∧
        jsOrDefault row.status "fail" = "fail") := by
  constructor
  · intro h
    rcases List.any_eq_true.mp h with ⟨p, hp, hpred⟩
    rcases (Bool.and_eq_true _ _).mp hpred with ⟨htype, hfail⟩
    have hfv : findVal p.1 (finalReqs results manifest) = some p.2 :=
      mem_findVal _ _ _ (finalReqs_nodup results manifest) hp
    rw [findVal_finalReqs] at hfv
    cases h0 : findVal p.1 (seedRequirements manifest) with
    | none =>
      rw [h0] at hfv
      simp at hfv
    | some e0 =>
      rw [h0] at hfv
      have he : reqEntryFold p.1 results e0 = p.2 := by simpa using hfv
      have hseed := seedInv manifest.requirements []
        (by intro k e he2; simp [findVal] at he2) p.1 e0 h0
      have hhf : p.2.hasFail = (e0.hasFail || results.any (matchingFailRecord p.1)) := by
        rw [← he, reqEntryFold_hasFail]
      rw [hseed.1] at hhf
      have hany : results.any (matchingFailRecord p.1) = true := by
        rw [hfail] at hhf
        simpa using hhf.symm
      rcases List.any_eq_true.mp hany with ⟨row, hrow, hmatch⟩
      rcases (Bool.and_eq_true _ _).mp hmatch with ⟨hm1, hm2⟩
      refine ⟨row, hrow, p.1, of_decide_eq_true hm1, ⟨e0, h0, ?_⟩, of_decide_eq_true hm2⟩
      have : p.2.type = e0.type := by
        rw [← he]
        exact (reqEntryFold_const p.1 results e0).2.1
      rw [← this]
      exact eq_of_beq htype
  · rintro ⟨row, hrow, rid, hrid, ⟨e0, he0, ht⟩, hfail⟩
    have hfv : findVal rid (finalReqs results manifest) =
        some (reqEntryFold rid results e0) := by
      rw [findVal_finalReqs, he0]
      rfl
    refine List.any_eq_true.mpr ⟨(rid, reqEntryFold rid results e0),
      findVal_mem _ _ _ hfv, ?_⟩
    refine (Bool.and_eq_true _ _).mpr ⟨?_, ?_⟩
    · show ((reqEntryFold rid results e0).type == t) = true
      rw [(reqEntryFold_const rid results e0).2.1, ht]
      exact beq_self_eq_true t
    · show (reqEntryFold rid results e0).hasFail = true
      rw [reqEntryFold_hasFail]
      have : matchingFailRecord rid row = true := by
        unfold matchingFailRecord
        rw [decide_eq_true hrid, decide_eq_true hfail]
        rfl
      have hany : results.any (matchingFailRecord rid) = true :=
        List.any_eq_true.mpr ⟨row, hrow, this⟩
      rw [hany]
      simp

/-- Unfolding a mandatory failing-record scan. -/
theorem failingMandatoryRecord_eq_true (manifest : Manifest) (row : ResultRow) :
    failingMandatoryRecord manifest row = true ↔
      ∃ rid, jsOrNull row.requirementId = some rid ∧
        (∃ e0, findVal rid (seedRequirements manifest) = some e0 ∧
          e0.type = "requirement") ∧
        jsOrDefault row.status "fail" = "fail" := by
  unfold failingMandatoryRecord
  cases h1 : jsOrNull row.requirementId with
  | none => simp
  | some rid =>
    cases h2 : findVal rid (seedRequirements manifest) with
    | none => simp [h2]
    | some e0 => simp [h2, Bool.and_eq_true, decide_eq_true_iff, and_assoc]

/-- Unfolding an advisory failing-record scan. -/
theorem failingAdvisoryRecord_eq_true (manifest : Manifest) (row : ResultRow) :
    failingAdvisoryRecord manifest row = true ↔
      ∃ rid, jsOrNull row.requirementId = some rid ∧
        (∃ e0, findVal rid (seedRequirements manifest) = some e0 ∧
          e0.type = "recommendation") ∧
        jsOrDefault row.status "fail" = "fail" := by
  unfold failingAdvisoryRecord
  cases h1 : jsOrNull row.requirementId with
  | none => simp
  | some rid =>
    cases h2 : findVal rid (seedRequirements manifest) with
    | none => simp [h2]
    | some e0 => simp [h2, Bool.and_eq_true, decide_eq_true_iff, and_assoc]

/-- Every profile of the final requirement map carries its key as id. -/
theorem finalReqs_idInv (results : List ResultRow) (manifest : Manifest) :
    ∀ kv ∈ finalReqs results manifest, (kv.2 : ReqEntry).id = kv.1 :=
  reqIdInv results manifest

/-- C2: the document-level status is the same four-case priority rule as
the per-entity rule, applied to the existence of a failing record against
a mandatory requirement and against an advisory one, with the uncurated
flag source always unset — hence never `uncurated`. -/
theorem computeOntologyReport_status_rule (results : List ResultRow) (manifest : Manifest)
    (ontologyIri : Option String) :
    (computeOntologyReport results manifest ontologyIri).statusIri =
      fourCaseRule false (results.any (failingMandatoryRecord manifest))
        (results.any (failingAdvisoryRecord manifest))
    ∧ (computeOntologyReport results manifest ontologyIri).statusIri ≠ IAO_UNCURATED := by
  have hm : ((finalReqs results manifest).any
        (fun p => p.2.type == "requirement" && p.2.hasFail)) =
      results.any (failingMandatoryRecord manifest) := by
    rw [Bool.eq_iff_iff, any_type_fail_exchange, List.any_eq_true]
    constructor
    · rintro ⟨row, hrow, hex⟩
      exact ⟨row, hrow, (failingMandatoryRecord_eq_true manifest row).mpr hex⟩
    · rintro ⟨row, hrow, hf⟩
      exact ⟨row, hrow, (failingMandatoryRecord_eq_true manifest row).mp hf⟩
  have hr : ((finalReqs results manifest).any
        (fun p => p.2.type == "recommendation" && p.2.hasFail)) =
      results.any (failingAdvisoryRecord manifest) := by
    rw [Bool.eq_iff_iff, any_type_fail_exchange, List.any_eq_true]
    constructor
    · rintro ⟨row, hrow, hex⟩
      exact ⟨row, hrow, (failingAdvisoryRecord_eq_true manifest row).mpr hex⟩
    · rintro ⟨row, hrow, hf⟩
      exact ⟨row, hrow, (failingAdvisoryRecord_eq_true manifest row).mp hf⟩
  constructor
  · rw [computeOntologyReport_statusIri, hm, hr, statusPolicy_eq_fourCaseRule]
    rfl
  · rw [computeOntologyReport_statusIri, hm, hr, statusPolicy_eq_fourCaseRule]
    intro hcon
    exact absurd ((fourCaseRule_eq_uncurated_iff _ _ _).mp hcon) (by decide)

/-- C8: each manifest requirement declaration (ids duplicate-free) appears
exactly once in the document report's requirement list; its status is
`fail` exactly when some matching record failed; with no matching records
at all it is reported `pass` with no failing entities. -/
theorem computeOntologyReport_requirement_list (results : List ResultRow)
    (manifest : Manifest) (ontologyIri : Option String) (req : Requirement)
    (hnd : (manifest.requirements.map (fun r => r.id)).Nodup)
    (hreq : req ∈ manifest.requirements) :
    (((computeOntologyReport results manifest ontologyIri).requirements.filter
        (fun e => decide (e.id = req.id))).length = 1)
    ∧ (∀ e ∈ (computeOntologyReport results manifest ontologyIri).requirements,
        e.id = req.id →
        ((e.status = "fail") ↔ ∃ row ∈ results,
            jsOrNull row.requirementId = some req.id ∧
            jsOrDefault row.status "fail" = "fail")
        ∧ ((∀ row ∈ results, ¬(jsOrNull row.requirementId = some req.id)) →
            e.status = "pass" ∧ e.failedResourcesCount = 0 ∧ e.failingResources = [])) := by
  have hseedself : findVal req.id (seedRequirements manifest) = some (seedEntry req) :=
    findVal_seed_self manifest.requirements [] req hnd hreq
  have hfv : findVal req.id (finalReqs results manifest) =
      some (reqEntryFold req.id results (seedEntry req)) := by
    rw [findVal_finalReqs, hseedself]
    rfl
  constructor
  · rw [computeOntologyReport_requirements,
      filter_toReqReport (finalReqs results manifest) req.id
        (finalReqs_idInv results manifest) (finalReqs_nodup results manifest),
      hfv]
    rfl
  · intro e he hid
    rw [computeOntologyReport_requirements] at he
    rcases List.mem_map.mp he with ⟨p, hp, hpe⟩
    have hpid : p.2.id = p.1 := reqIdInv results manifest p hp
    have hp1 : p.1 = req.id := by
      rw [← hpid, ← hid, ← hpe]
      rfl
    have hfvp : findVal p.1 (finalReqs results manifest) = some p.2 :=
      mem_findVal _ _ _ (finalReqs_nodup results manifest) hp
    rw [hp1, hfv] at hfvp
    have hp2 : p.2 = reqEntryFold req.id results (seedEntry req) :=
      ((Option.some.injEq _ _).mp hfvp).symm
    constructor
    · have hstatus : e.status = (if p.2.hasFail then "fail" else "pass") := by
        rw [← hpe]
        rfl
      have hhf : p.2.hasFail = results.any (matchingFailRecord req.id) := by
        rw [hp2, reqEntryFold_hasFail]
        simp [seedEntry]
      rw [hstatus, hhf]
      constructor
      · intro hfail
        by_cases hany : results.any (matchingFailRecord req.id) = true
        · rcases List.any_eq_true.mp hany with ⟨row, hrow, hmatch⟩
          rcases (Bool.and_eq_true _ _).mp hmatch with ⟨h1, h2⟩
          exact ⟨row, hrow, of_decide_eq_true h1, of_decide_eq_true h2⟩
        · rw [Bool.eq_false_iff.mpr hany] at hfail
          exact absurd hfail (by decide)
      · rintro ⟨row, hrow, h1, h2⟩
        have hmatch : matchingFailRecord req.id row = true := by
          unfold matchingFailRecord
          rw [decide_eq_true h1, decide_eq_true h2]
          rfl
        rw [List.any_eq_true.mpr ⟨row, hrow, hmatch⟩]
        rfl
    · intro hnomatch
      have hfold : reqEntryFold req.id results (seedEntry req) = seedEntry req :=
        reqEntryFold_of_no_match req.id results _ hnomatch
      have hp2e : p.2 = seedEntry req := hp2.trans hfold
      rw [← hpe, hp2e]
      exact ⟨rfl, rfl, rfl⟩

/-- The known-resources loop is pointwise congruent: maps agreeing at a
key still agree there afterwards. -/
theorem findVal_addKnown_congr (per1 per2 : List (String × Entry))
    (allResources : Option (List String)) (k : String)
    (h : findVal k per1 = findVal k per2) :
    findVal k (addKnownResources per1 allResources) =
      findVal k (addKnownResources per2 allResources) := by
  cases allResources with
  | none => rw [findVal_addKnown_none, findVal_addKnown_none, h]
  | some l => rw [findVal_addKnown, findVal_addKnown, h]

/-- The known-resources loop never removes a profile. -/
theorem isSome_addKnown (per : List (String × Entry)) (allResources : Option (List String))
    (k : String) (h : (findVal k per).isSome = true) :
    (findVal k (addKnownResources per allResources)).isSome = true := by
  cases allResources with
  | none => exact h
  | some l =>
    rw [findVal_addKnown]
    cases h0 : findVal k per with
    | some e => rfl
    | none =>
      rw [h0] at h
      simp at h

/-- C4: a result record with a null entity identifier is not dropped: it
still drives the matching requirement's failure flag in the Document
Aggregator, it leaves the report of every real entity unchanged in the
Resource Aggregator, and it is filed under the `urn:resource:unknown`
sentinel profile there. -/
theorem nullEntityRecord_counted_not_attributed (l1 l2 : List ResultRow)
    (row0 : ResultRow) (manifest : Manifest) (allResources : Option (List String))
    (ontologyIri : Option String) (rid : String)
    (hres : row0.resource = none)
    (hfail : jsOrDefault row0.status "fail" = "fail")
    (hrid : jsOrNull row0.requirementId = some rid)
    (hknown : rid ∈ manifest.requirements.map (fun r => r.id)) :
    (∃ e ∈ (computeOntologyReport (l1 ++ row0 :: l2) manifest ontologyIri).requirements,
        e.id = rid ∧ e.status = "fail")
    ∧ (∀ name, ¬(name = "urn:resource:unknown") →
        (computePerResourceCuration (l1 ++ row0 :: l2) manifest allResources).filter
            (fun r => decide (r.resource = name)) =
          (computePerResourceCuration (l1 ++ l2) manifest allResources).filter
            (fun r => decide (r.resource = name)))
    ∧ (∃ r ∈ computePerResourceCuration (l1 ++ row0 :: l2) manifest allResources,
        r.resource = "urn:resource:unknown") := by
  have hmem0 : row0 ∈ l1 ++ row0 :: l2 :=
    List.mem_append.mpr (Or.inr (List.mem_cons_self row0 l2))
  have hnorm0 : normRes row0 = "urn:resource:unknown" := by
    unfold normRes
    rw [hres]
    rfl
  refine ⟨?_, ?_, ?_⟩
  · have hsome : (findVal rid (seedRequirements manifest)).isSome = true :=
      isSome_findVal_seed manifest.requirements [] rid (Or.inl hknown)
    rcases Option.isSome_iff_exists.mp hsome with ⟨e0, he0⟩
    have hid0 : e0.id = rid :=
      (seedInv manifest.requirements [] (by intro k e he2; simp [findVal] at he2)
        rid e0 he0).2.2
    have hfv : findVal rid (finalReqs (l1 ++ row0 :: l2) manifest) =
        some (reqEntryFold rid (l1 ++ row0 :: l2) e0) := by
      rw [findVal_finalReqs, he0]
      rfl
    refine ⟨toReqReport (reqEntryFold rid (l1 ++ row0 :: l2) e0), ?_, ?_, ?_⟩
    · rw [computeOntologyReport_requirements]
      exact List.mem_map.mpr
        ⟨(rid, reqEntryFold rid (l1 ++ row0 :: l2) e0), findVal_mem _ _ _ hfv, rfl⟩
    · show (reqEntryFold rid (l1 ++ row0 :: l2) e0).id = rid
      rw [(reqEntryFold_const rid _ e0).1, hid0]
    · show (if (reqEntryFold rid (l1 ++ row0 :: l2) e0).hasFail then "fail" else "pass") =
        "fail"
      have hmatch : matchingFailRecord rid row0 = true := by
        unfold matchingFailRecord
        rw [decide_eq_true hrid, decide_eq_true hfail]
        rfl
      have hany : (l1 ++ row0 :: l2).any (matchingFailRecord rid) = true :=
        List.any_eq_true.mpr ⟨row0, hmem0, hmatch⟩
      rw [reqEntryFold_hasFail, hany, Bool.or_true]
      rfl
  · intro name hname
    have hne : ¬(normRes row0 = name) := by
      rw [hnorm0]
      intro hcon
      exact hname hcon.symm
    have hrowfold : findVal name
        ((l1 ++ row0 :: l2).foldl (processRow (buildRequirementTypeMap manifest)) []) =
        findVal name ((l1 ++ l2).foldl (processRow (buildRequirementTypeMap manifest)) []) := by
      rw [List.foldl_append, List.foldl_append, List.foldl_cons,
        findVal_foldl_processRow, findVal_foldl_processRow,
        findVal_processRow, if_neg hne]
    have hcongr : findVal name (finalPer (l1 ++ row0 :: l2) manifest allResources) =
        findVal name (finalPer (l1 ++ l2) manifest allResources) :=
      findVal_addKnown_congr _ _ allResources name hrowfold
    rw [computePerResourceCuration_eq, computePerResourceCuration_eq,
      filter_finalize _ _ (finalPer_resourceInv (l1 ++ row0 :: l2) manifest allResources)
        (finalPer_nodup (l1 ++ row0 :: l2) manifest allResources),
      filter_finalize _ _ (finalPer_resourceInv (l1 ++ l2) manifest allResources)
        (finalPer_nodup (l1 ++ l2) manifest allResources),
      hcongr]
  · have hsome : (findVal "urn:resource:unknown"
        (finalPer (l1 ++ row0 :: l2) manifest allResources)).isSome = true := by
      refine isSome_addKnown _ allResources _ ?_
      rw [List.foldl_append, List.foldl_cons, findVal_foldl_processRow,
        findVal_processRow, if_pos hnorm0]
      exact entryFold_isSome _ _ _ _ rfl
    rcases Option.isSome_iff_exists.mp hsome with ⟨e, he⟩
    have hmem : ("urn:resource:unknown", e) ∈ finalPer (l1 ++ row0 :: l2) manifest allResources :=
      findVal_mem _ _ _ he
    refine ⟨finalizeEntry e, ?_, ?_⟩
    · rw [computePerResourceCuration_eq]
      exact List.mem_map.mpr ⟨("urn:resource:unknown", e), hmem, rfl⟩
    · show e.resource = _
      exact finalPer_resourceInv (l1 ++ row0 :: l2) manifest allResources _ hmem

/-- Concrete record set for the status-rule witness: one failing
`q_onlyLabel` record for `E2`. -/
def wRowsStatus : List ResultRow :=
  [{ resource := some "E2", requirementId := none, status := some "fail",
     queryId := some "q_onlyLabel", scope := none }]

/-- The report produced for `E2` on `wRowsStatus`. -/
def wReportStatus : Report :=
  { resource := "E2", statusIri := IAO_UNCURATED, statusLabel := "uncurated",
    failedRequirements := [], failedRecommendations := [] }

/-- Witness for the per-entity status rule at a concrete input. -/
theorem computePerResourceCuration_status_rule_witness :
    wReportStatus ∈ computePerResourceCuration wRowsStatus { requirements := [] } none
    ∧ wReportStatus.statusIri =
        fourCaseRule (wRowsStatus.any (uncuratedRecordFor wReportStatus.resource))
          (!wReportStatus.failedRequirements.isEmpty)
          (!wReportStatus.failedRecommendations.isEmpty) :=
  ⟨by decide,
    computePerResourceCuration_status_rule wRowsStatus { requirements := [] } none
      wReportStatus (by decide)⟩

/-- Concrete record set for the classifier witness: one passing
`q_onlyLabel` record for `E9`. -/
def wRowsPass : List ResultRow :=
  [{ resource := some "E9", requirementId := none, status := some "pass",
     queryId := some "q_onlyLabel", scope := none }]

/-- The report produced for `E9` on `wRowsPass`. -/
def wReportPass : Report :=
  { resource := "E9", statusIri := IAO_PENDING_FINAL_VETTING,
    statusLabel := "pending final vetting",
    failedRequirements := [], failedRecommendations := [] }

/-- Witness for the classifier rule: a passing `q_onlyLabel` record
leaves the entity not `uncurated`. -/
theorem q_onlyLabel_flag_only_on_fail_witness :
    wReportPass ∈ computePerResourceCuration wRowsPass { requirements := [] } none
    ∧ (wReportPass.statusIri = IAO_UNCURATED ↔
        wRowsPass.any (uncuratedRecordFor wReportPass.resource) = true) :=
  ⟨by decide,
    q_onlyLabel_flag_only_on_fail wRowsPass { requirements := [] } none
      wReportPass (by decide)⟩

/-- Witness for the known-entity guarantee: entity `E5` with no records. -/
theorem computePerResourceCuration_known_entities_witness :
    ("E5" ∈ ["E5"])
    ∧ (((computePerResourceCuration [] { requirements := [] } (some ["E5"])).filter
          (fun r => decide (r.resource = "E5"))).length = 1
       ∧ ((∀ row ∈ ([] : List ResultRow), ¬(normRes row = "E5")) →
          ({ resource := "E5", statusIri := IAO_PENDING_FINAL_VETTING,
             statusLabel := "pending final vetting",
             failedRequirements := [], failedRecommendations := [] } : Report)
            ∈ computePerResourceCuration [] { requirements := [] } (some ["E5"]))) :=
  ⟨by decide,
    computePerResourceCuration_known_entities [] { requirements := [] } ["E5"] "E5"
      (by decide)⟩

/-- The SELECT declaration used by the always-fail witness. -/
def wSelMeta : QueryMeta :=
  { id := "q7", kind := some "SELECT", polarity := some "matchMeansFail",
    severity := some "error", scope := some "resource",
    checksConformityTo := some "R7", resourceVar := none }

/-- Witness for the always-fail SELECT policy at a concrete input. -/
theorem evaluateSingleQuery_select_always_fail_witness :
    wSelMeta.kind = some "SELECT"
    ∧ ((evaluateSingleQuery [] wSelMeta [[("resource", "E1")]] false).length =
        ([[("resource", "E1")]] : List BindingRow).length
       ∧ (evaluateSingleQuery [] wSelMeta [[("resource", "E1")]] false).map
            (fun r => r.details) =
          ([[("resource", "E1")]] : List BindingRow).map Details.rowDetails
       ∧ ∀ r ∈ evaluateSingleQuery [] wSelMeta [[("resource", "E1")]] false,
          r.status = "fail" ∧ ¬(r.status = "pass")) :=
  ⟨rfl,
    evaluateSingleQuery_select_always_fail [] wSelMeta [[("resource", "E1")]] false rfl⟩

/-- The ASK declaration used by the polarity witness. -/
def wAskMeta : QueryMeta :=
  { id := "q8", kind := some "ASK", polarity := some "trueMeansFail",
    severity := none, scope := some "ontology",
    checksConformityTo := some "R8", resourceVar := none }

/-- The store used by the polarity witness: one ontology-typed subject. -/
def wAskStore : List Quad :=
  [{ subject := "urn:O", predicate := RDF_TYPE, object := OWL_ONTOLOGY }]

/-- Witness for the ASK polarity rule at a concrete input. -/
theorem evaluateSingleQuery_ask_polarity_witness :
    wAskMeta.kind = some "ASK"
    ∧ (evaluateSingleQuery wAskStore wAskMeta [] true =
        [{ resource := some (guessOntologyIri wAskStore), queryId := wAskMeta.id,
           requirementId := jsOrNull wAskMeta.checksConformityTo,
           status := askPolarityRule wAskMeta.polarity true,
           severity := jsOrDefault wAskMeta.severity "info",
           scope := jsOrDefault wAskMeta.scope "resource",
           details := Details.askDetails true }]
       ∧ ((∀ q ∈ wAskStore, ¬(q.predicate = RDF_TYPE ∧ q.object = OWL_ONTOLOGY)) →
          guessOntologyIri wAskStore = "urn:ontology:unknown")) :=
  ⟨rfl, evaluateSingleQuery_ask_polarity wAskStore wAskMeta [] true rfl⟩

/-- Witness for the amended entity chain at a concrete input. -/
theorem evaluateSingleQuery_select_entity_chain_witness :
    qMetaChainCx.kind = some "SELECT"
    ∧ (evaluateSingleQuery [] qMetaChainCx [[("x", "w")]] false).map (fun r => r.resource) =
        ([[("x", "w")]] : List BindingRow).map (specEntityChainAmended qMetaChainCx.resourceVar) :=
  ⟨rfl, evaluateSingleQuery_select_entity_chain [] qMetaChainCx [[("x", "w")]] false rfl⟩

/-- The manifest used by the requirement-list witness. -/
def wManReq : Manifest :=
  { requirements := [{ id := "R1", type := none, weight := none },
                     { id := "R2", type := some "recommendation", weight := some 2 }] }

/-- The record set used by the requirement-list witness: one failing
record for `R1`. -/
def wRowsReq : List ResultRow :=
  [{ resource := some "E1", requirementId := some "R1", status := some "fail",
     queryId := none, scope := none }]

/-- Witness for the document requirement list at a concrete input. -/
theorem computeOntologyReport_requirement_list_witness :
    (wManReq.requirements.map (fun r => r.id)).Nodup
    ∧ ((((computeOntologyReport wRowsReq wManReq none).requirements.filter
          (fun e => decide (e.id = ({ id := "R1", type := none, weight := none } : Requirement).id))).length = 1)
       ∧ (∀ e ∈ (computeOntologyReport wRowsReq wManReq none).requirements,
          e.id = ({ id := "R1", type := none, weight := none } : Requirement).id →
          ((e.status = "fail") ↔ ∃ row ∈ wRowsReq,
              jsOrNull row.requirementId =
                some ({ id := "R1", type := none, weight := none } : Requirement).id ∧
              jsOrDefault row.status "fail" = "fail")
          ∧ ((∀ row ∈ wRowsReq,
              ¬(jsOrNull row.requirementId =
                some ({ id := "R1", type := none, weight := none } : Requirement).id)) →
              e.status = "pass" ∧ e.failedResourcesCount = 0 ∧ e.failingResources = []))) :=
  ⟨by decide,
    computeOntologyReport_requirement_list wRowsReq wManReq none
      { id := "R1", type := none, weight := none } (by decide) (by decide)⟩

/-- The null-entity record used by the error-handling witness. -/
def wRowNull : ResultRow :=
  { resource := none, requirementId := some "R1", status := none,
    queryId := none, scope := none }

/-- The manifest used by the error-handling witness. -/
def wManNull : Manifest :=
  { requirements := [{ id := "R1", type := none, weight := none }] }

/-- Witness for the null-entity record behaviour at a concrete input. -/
theorem nullEntityRecord_counted_not_attributed_witness :
    wRowNull.resource = none
    ∧ ((∃ e ∈ (computeOntologyReport [wRowNull] wManNull none).requirements,
          e.id = "R1" ∧ e.status = "fail")
       ∧ (∀ name, ¬(name = "urn:resource:unknown") →
          (computePerResourceCuration [wRowNull] wManNull none).filter
              (fun r => decide (r.resource = name)) =
            (computePerResourceCuration [] wManNull none).filter
              (fun r => decide (r.resource = name)))
       ∧ (∃ r ∈ computePerResourceCuration [wRowNull] wManNull none,
          r.resource = "urn:resource:unknown")) :=
  ⟨rfl,
    nullEntityRecord_counted_not_attributed [] [] wRowNull wManNull none none "R1"
      rfl (by decide) (by decide) (by decide)⟩

/-- The query loader used by the failure-isolation witness: loading the
declaration `bad` throws. -/
def wLoadText (q : QueryMeta) : Except Unit String :=
  if q.id = "bad" then Except.error () else Except.ok "SELECT"

/-- The query runner used by the failure-isolation witness: one record
per declaration. -/
def wRunQuery (q : QueryMeta) (text : String) : Except Unit (List EngineRecord) :=
  Except.ok
    [{ resource := none, queryId := q.id, requirementId := none, status := "fail",
       severity := "info", scope := "resource", details := Details.rowDetails [("t", text)] }]

/-- A well-behaved declaration before the failing one. -/
def wQGood1 : QueryMeta :=
  { id := "q1", kind := some "SELECT", polarity := none, severity := none,
    scope := none, checksConformityTo := none, resourceVar := none }

/-- The failing declaration. -/
def wQBad : QueryMeta :=
  { id := "bad", kind := some "SELECT", polarity := none, severity := none,
    scope := none, checksConformityTo := none, resourceVar := none }

/-- A well-behaved declaration after the failing one. -/
def wQGood2 : QueryMeta :=
  { id := "q2", kind := some "ASK", polarity := none, severity := none,
    scope := none, checksConformityTo := none, resourceVar := none }

/-- Witness for failure isolation at a concrete input. -/
theorem evaluateAllQueries_failure_isolated_witness :
    runDeclaration wLoadText wRunQuery wQBad = Except.error ()
    ∧ evaluateAllQueries wLoadText wRunQuery ([wQGood1] ++ wQBad :: [wQGood2]) =
        evaluateAllQueries wLoadText wRunQuery [wQGood1] ++
          evaluateAllQueries wLoadText wRunQuery [wQGood2] :=
  ⟨rfl,
    evaluateAllQueries_failure_isolated wLoadText wRunQuery [wQGood1] [wQGood2] wQBad
      rfl⟩
